import Mathlib

/-!
Verification development for the bili_downloader repository
(client / parser / downloader triad).

The Rust source is shallowly embedded: pure fragments become Lean
functions, stateful fragments become explicit state passing or a step
relation, machine integers become Int/Nat (overflow is modelled
explicitly where the source checks it), fallible code returns Except,
and Rust panics are modelled with an explicit PanicOr wrapper.
HashMap iteration order (which Rust leaves arbitrary) is modelled by an
explicit reordering parameter, and the MD5 digest (whose value no claim
depends on) is a function parameter of the signing embedding.
-/

namespace BiliDl

/-! ### Shared basic models (src/downloader/models.rs, src/parser/errors.rs) -/

/-- Model of `FileType` from src/downloader/models.rs. -/
inductive FileType where
  | video
  | audio
  | danmaku
  | subtitle
  | image
  | other (s : String)
deriving DecidableEq, Repr

/-- Model of `TaskStatus` from src/downloader/models.rs. -/
inductive TaskStatus where
  | queued
  | downloading
  | completed
  | failed
  | error (msg : String)
  | skipped (msg : String)
deriving DecidableEq, Repr

/-- Model of `ParseError` from src/parser/errors.rs (payload-free variants
collapsed to the ones the embedded code paths construct). -/
inductive ParseError where
  | invalidUrl
  | unsupportedType
  | unsupportedFormat
  | invalidShortUrl
  | networkError (msg : String)
  | loginRequired
  | redirectFailed (msg : String)
  | parseError (msg : String)
  | apiError (msg : String)
  | redirect (url : String)
  | paymentRequired
deriving DecidableEq, Repr

/-! ### Stable insertion sort, modelling Rust's stable `sort_by`
(`Vec::sort_by` is documented stable; insertion sort below keeps earlier
elements in front of later ones that compare equal). -/

/-- Insert `x` into `l`, in front of the first element `y` with `le x y`. -/
def insertBy (le : α → α → Bool) (x : α) : List α → List α
  | [] => [x]
  | y :: ys => if le x y then x :: y :: ys else y :: insertBy le x ys

/-- Stable sort by the boolean comparison `le` (insertion sort). -/
def sortBy (le : α → α → Bool) : List α → List α
  | [] => []
  | x :: xs => insertBy le x (sortBy le xs)

/-- First element of `l` that is `le`-before every later candidate: the
element a stable sort by `le` puts at the head. -/
def bestFirst (le : α → α → Bool) (d : α) : List α → α
  | [] => d
  | [x] => x
  | x :: y :: ys =>
    let m := bestFirst le d (y :: ys)
    if le x m then x else m

/-! ### Episode range parsing
(src/parser/detail_parser/parser_trait.rs, `parse_episode_range`). -/

/-- Model of Rust's `str::split(sep)` on a character list: splitting the
empty string yields one empty piece, and separators delimit pieces. -/
def splitChar (sep : Char) : List Char → List (List Char)
  | [] => [[]]
  | c :: rest =>
    let r := splitChar sep rest
    if c = sep then [] :: r
    else
      match r with
      | [] => [[c]]
      | h :: t => (c :: h) :: t

/-- Decimal digit value of a character, when it is a digit. -/
def digitVal (c : Char) : Option Nat :=
  if c.isDigit then some (c.toNat - 48) else none

/-- Value of a non-empty all-digit character list. -/
def digitsVal : List Char → Option Nat
  | [] => none
  | cs => go cs 0
where
  go : List Char → Nat → Option Nat
    | [], acc => some acc
    | c :: rest, acc =>
      match digitVal c with
      | none => none
      | some d => go rest (acc * 10 + d)

/-- Model of Rust's `i64::from_str`: optional sign, then a non-empty run
of decimal digits, rejecting values outside the i64 range. -/
def parseI64 (cs : List Char) : Option Int :=
  match cs with
  | [] => none
  | c :: rest =>
    let signed : Bool × List Char :=
      if c = '-' then (true, rest)
      else if c = '+' then (false, rest)
      else (false, c :: rest)
    match digitsVal signed.2 with
    | none => none
    | some n =>
      let v : Int := if signed.1 then -(n : Int) else (n : Int)
      if -(2 ^ 63) ≤ v ∧ v ≤ 2 ^ 63 - 1 then some v else none

/-- Inclusive range `start..=end` as a list, matching `episodes.extend(start..=end)`. -/
def rangeInclusive (lo hi : Int) : List Int :=
  (List.range (hi + 1 - lo).toNat).map (fun i => lo + Int.ofNat i)

/-- Consecutive deduplication, matching `Vec::dedup`. -/
def dedupConsec : List Int → List Int
  | [] => []
  | [x] => [x]
  | x :: y :: rest =>
    if x = y then dedupConsec (y :: rest) else x :: dedupConsec (y :: rest)

/-- Per-part processing of `parse_episode_range`'s loop body: a part with
a dash is a range item, otherwise a single episode number. -/
def parseRangePart (part : List Char) : Except ParseError (List Int) :=
  if '-' ∈ part then
    let range := splitChar '-' part
    if range.length ≠ 2 then .error (.parseError "无效的集数范围格式")
    else
      match parseI64 (range.headD []) with
      | none => .error (.parseError "无效的起始集数")
      | some lo =>
        match parseI64 ((range.drop 1).headD []) with
        | none => .error (.parseError "无效的结束集数")
        | some hi =>
          if lo > hi then .error (.parseError "起始集数不能大于结束集数")
          else .ok (rangeInclusive lo hi)
  else
    match parseI64 part with
    | none => .error (.parseError "无效的集数")
    | some ep => .ok [ep]

/-- Loop of `parse_episode_range` over the comma-separated parts. -/
def collectParts : List (List Char) → Except ParseError (List Int)
  | [] => .ok []
  | part :: rest => do
    let xs ← parseRangePart part
    let ys ← collectParts rest
    pure (xs ++ ys)

/-- Model of `parse_episode_range` (src/parser/detail_parser/parser_trait.rs:76).
Collect all parts, sort, dedup, reject an empty result. -/
def parseEpisodeRange (rangeStr : String) : Except ParseError (List Int) := do
  let episodes ← collectParts (splitChar ',' rangeStr.data)
  let sorted := sortBy (fun a b => decide (a ≤ b)) episodes
  let deduped := dedupConsec sorted
  if deduped.isEmpty then .error (.parseError "没有有效的集数")
  else .ok deduped

/-! ### Stream selection (src/parser/detail_parser/stream_utils.rs). -/

/-- Model of `DashItem` from src/parser/detail_parser/models/play_url.rs. -/
structure DashItem where
  id : Int
  base_url : String
  backup_url : Option (List String) := none
  mime_type : String := ""
  codecs : String := ""
  bandwidth : Int := 0
  width : Option Int := none
  height : Option Int := none
  frame_rate : Option String := none
deriving DecidableEq, Repr

instance : Inhabited DashItem := ⟨{ id := 0, base_url := "" }⟩

/-- Error message of `select_video_stream` on an empty list. -/
def noVideoStreamMsg : String :=
  "没有可用的视频流。可能原因：1. 视频需要大会员权限 2. 当前清晰度不可用 3. Cookie已过期，请重新登录"

/-- Error message of `select_audio_stream` on an empty list. -/
def noAudioStreamMsg : String :=
  "没有可用的音频流。可能原因：1. 视频源异常 2. 网络问题 3. Cookie已过期"

/-- Model of `select_video_stream` (src/parser/detail_parser/stream_utils.rs:7):
exact quality match first, else the best stream not above the target
(stable descending sort, take the front), else the lowest stream
(stable ascending sort, take the front). -/
def selectVideoStream (streams : List DashItem) (targetQualityId : Int) :
    Except ParseError (Option String) :=
  if streams.isEmpty then .error (.parseError noVideoStreamMsg)
  else
    match streams.find? (fun s => s.id == targetQualityId) with
    | some s => .ok (some s.base_url)
    | none =>
      let suitable := streams.filter (fun s => decide (s.id ≤ targetQualityId))
      if !suitable.isEmpty then
        let sorted := sortBy (fun a b => decide (b.id ≤ a.id)) suitable
        .ok (some (sorted.headD default).base_url)
      else
        let allSorted := sortBy (fun a b => decide (a.id ≤ b.id)) streams
        .ok (some (allSorted.headD default).base_url)

/-- Model of `select_audio_stream` (src/parser/detail_parser/stream_utils.rs:73):
stable descending sort by bandwidth and take the front. -/
def selectAudioStream (streams : List DashItem) : Except ParseError (Option String) :=
  if streams.isEmpty then .error (.parseError noAudioStreamMsg)
  else
    let sorted := sortBy (fun a b => decide (b.bandwidth ≤ a.bandwidth)) streams
    .ok (some (sorted.headD default).base_url)

/-- Maximum of a list of integers (0 on the empty list; only used on
non-empty lists). Spec-side helper for stating claim C8. -/
def maxKeyL : List Int → Int
  | [] => 0
  | [x] => x
  | x :: y :: ys => max x (maxKeyL (y :: ys))

/-- Minimum of a list of integers (0 on the empty list). Spec-side helper. -/
def minKeyL : List Int → Int
  | [] => 0
  | [x] => x
  | x :: y :: ys => min x (minKeyL (y :: ys))

/-- Specification-side restatement of claim C8's selection rule, written
from the spec's words: the exact-match entry, else the first entry
attaining the highest id not exceeding the target, else the first entry
attaining the lowest id. -/
def selectVideoStreamSpec (streams : List DashItem) (targetQualityId : Int) :
    Except ParseError (Option String) :=
  if streams.isEmpty then .error (.parseError noVideoStreamMsg)
  else
    match streams.find? (fun s => s.id == targetQualityId) with
    | some s => .ok (some s.base_url)
    | none =>
      let suitable := streams.filter (fun s => decide (s.id ≤ targetQualityId))
      if !suitable.isEmpty then
        .ok ((suitable.find? (fun s => s.id == maxKeyL (suitable.map DashItem.id))).map
          DashItem.base_url)
      else
        .ok ((streams.find? (fun s => s.id == minKeyL (streams.map DashItem.id))).map
          DashItem.base_url)

/-! ### WBI signing (src/common/wbi_utils.rs). -/

/-- The fixed 64-element permutation table `MIXIN_KEY_ENC_TAB`. -/
def MIXIN_KEY_ENC_TAB : List Nat :=
  [46, 47, 18, 2, 53, 8, 23, 32, 15, 50, 10, 31, 58, 3, 45, 35, 27, 43, 5, 49, 33, 9, 42, 19, 29,
   28, 14, 39, 12, 38, 41, 13, 37, 48, 7, 16, 24, 55, 40, 61, 26, 17, 0, 1, 60, 51, 30, 4, 22, 25,
   54, 21, 56, 59, 6, 63, 57, 62, 11, 36, 20, 34, 44, 52]

/-- Model of `WbiUtils::get_mixin_key`: concatenate the two keys, pick the
characters at the table's indices (skipping out-of-range indices, as
`filter_map` does), and keep the first 32. -/
def getMixinKey (imgKey subKey : String) : String :=
  String.mk ((MIXIN_KEY_ENC_TAB.filterMap (fun i => (imgKey ++ subKey).data.get? i)).take 32)

/-- Characters stripped from parameter values: `!` `'` `(` `)` `*`
(written by code point to keep the source ASCII-clean). -/
def strippedChars : List Char :=
  [Char.ofNat 33, Char.ofNat 39, Char.ofNat 40, Char.ofNat 41, Char.ofNat 42]

/-- Value filtering step of `enc_wbi`: drop the special characters. -/
def filterValue (v : String) : String :=
  String.mk (v.data.filter (fun c => !(strippedChars.contains c)))

/-- UTF-8 byte sequence of a unicode scalar value (standard 1-4 byte encoding). -/
def utf8Bytes (c : Char) : List Nat :=
  let n := c.toNat
  if n < 0x80 then [n]
  else if n < 0x800 then [0xC0 + n / 0x40, 0x80 + n % 0x40]
  else if n < 0x10000 then
    [0xE0 + n / 0x1000, 0x80 + (n / 0x40) % 0x40, 0x80 + n % 0x40]
  else
    [0xF0 + n / 0x40000, 0x80 + (n / 0x1000) % 0x40, 0x80 + (n / 0x40) % 0x40, 0x80 + n % 0x40]

/-- Uppercase hexadecimal digit. -/
def hexDigitChar (n : Nat) : Char :=
  if n < 10 then Char.ofNat (48 + n) else Char.ofNat (65 + (n - 10))

/-- A byte is kept verbatim by `urlencoding::encode` iff it is an RFC 3986
unreserved character: ALPHA / DIGIT / `-` / `.` / `_` / `~`. -/
def isUnreservedByte (b : Nat) : Bool :=
  (65 ≤ b && b ≤ 90) || (97 ≤ b && b ≤ 122) || (48 ≤ b && b ≤ 57) ||
    b == 45 || b == 46 || b == 95 || b == 126

/-- Model of `urlencoding::encode`: percent-encode every non-unreserved
UTF-8 byte, uppercase hex. -/
def percentEncode (s : String) : String :=
  String.mk (s.data.flatMap (fun c =>
    (utf8Bytes c).flatMap (fun b =>
      if isUnreservedByte b then [Char.ofNat b]
      else ['%', hexDigitChar (b / 16), hexDigitChar (b % 16)])))

/-- Lexicographic comparison of character lists by scalar value. On UTF-8
data this equals Rust's byte-lexicographic `str` ordering (used by
`sorted_by(|a, b| a.0.cmp(&b.0))`). -/
def charListLe : List Char → List Char → Bool
  | [], _ => true
  | _ :: _, [] => false
  | a :: as, b :: bs =>
    if a.toNat < b.toNat then true
    else if b.toNat < a.toNat then false
    else charListLe as bs

/-- Rust's `String` ordering as a Bool relation. -/
def rustStrLe (a b : String) : Bool := charListLe a.data b.data

/-- Map insertion on the association-list view of a `HashMap`: replace the
value when the key is present, otherwise add the pair. -/
def insertKV (l : List (String × String)) (k v : String) : List (String × String) :=
  if l.any (fun p => p.1 == k) then l.map (fun p => if p.1 == k then (k, v) else p)
  else l ++ [(k, v)]

/-- Render one `key=value` pair as `enc_wbi` does. -/
def encPair (p : String × String) : String :=
  percentEncode p.1 ++ "=" ++ percentEncode p.2

/-- Model of `WbiUtils::enc_wbi` (src/common/wbi_utils.rs:27).

The digest is abstracted as the parameter `md5hex` (no claim depends on
its value). The two `HashMap` iteration orders are the parameters
`order1` and `order2`: the code sorts the parameters with `sorted_by`
but then `collect`s them into a `HashMap<String, String>`, whose `iter()`
order is arbitrary, so the query strings are built in whatever order the
map yields (`order1` for the `w_rid` input, `order2` for the final
output, after `w_rid` is inserted). An order function models a possible
iteration order; theorems constrain it to be a permutation. -/
def encWbi (md5hex : String → String)
    (order1 order2 : List (String × String) → List (String × String))
    (params : List (String × String)) (wts : Int) (imgKey subKey : String) : String :=
  let mixinKey := getMixinKey imgKey subKey
  let withWts := insertKV params "wts" (toString wts)
  let sortedFiltered :=
    (sortBy (fun a b => rustStrLe a.1 b.1) withWts).map (fun p => (p.1, filterValue p.2))
  let filteredParams := order1 sortedFiltered
  let query := String.intercalate "&" (filteredParams.map encPair)
  let wRid := md5hex (query ++ mixinKey)
  let finalParams := order2 (insertKV filteredParams "w_rid" wRid)
  String.intercalate "&" (finalParams.map encPair)

/-- Keys of a rendered query string, in output order. -/
def queryKeys (q : String) : List String :=
  (splitChar '&' q.data).map (fun kv => String.mk (kv.takeWhile (fun c => c ≠ '=')))

/-- Sortedness of a list of strings (lexicographic, non-strict). -/
def stringsSorted : List String → Bool
  | [] => true
  | [_] => true
  | a :: b :: rest => rustStrLe a b && stringsSorted (b :: rest)

/-! ### Download core (src/downloader/core.rs). -/

/-- Model of `DownloadError` as used by src/downloader/core.rs. The
variant `RateLimited` is constructed throughout core.rs (e.g. lines
360, 807, 992); the copy of error.rs in this snapshot predates it, so
its display string is the carried message itself. -/
inductive DownloadError where
  | httpError (msg : String)
  | ioError (msg : String)
  | invalidUrl (msg : String)
  | taskNotFound (id : String)
  | taskAlreadyExists (id : String)
  | invalidState (msg : String)
  | mergeError (msg : String)
  | fileNotFound (path : String)
  | streamError (msg : String)
  | ffmpegError (msg : String)
  | ffmpegNotFound
  | semaphoreError
  | rateLimited (msg : String)
deriving DecidableEq, Repr

/-- Display strings of `DownloadError` (error.rs `impl fmt::Display`),
used by `run` for `TaskStatus::Error(e.to_string())`. -/
def downloadErrorMessage : DownloadError → String
  | .httpError msg => "HTTP错误: " ++ msg
  | .ioError msg => "IO错误: " ++ msg
  | .invalidUrl url => "无效的URL: " ++ url
  | .taskNotFound id => "任务未找到: " ++ id
  | .taskAlreadyExists id => "任务已存在: " ++ id
  | .invalidState msg => "无效的状态: " ++ msg
  | .semaphoreError => "信号量错误"
  | .fileNotFound path => "文件未找到: " ++ path
  | .ffmpegError msg => "ffmpeg错误: " ++ msg
  | .ffmpegNotFound => "ffmpeg未找到，请安装ffmpeg"
  | .mergeError msg => "合并错误: " ++ msg
  | .streamError msg => "流错误: " ++ msg
  | .rateLimited msg => msg

/-! #### Resume / range-header decision (claim C3),
from `download_binary_stream` (core.rs:237-259) and
`download_with_resume` (core.rs:398-429). -/

/-- Outcome shape of one `download_binary_stream` entry: either the early
success return (file already complete, no request issued) or an HTTP GET
carrying an optional `Range` header. -/
inductive BinaryAttemptPlan where
  | skipSuccess
  | request (rangeHeader : Option String)
deriving DecidableEq, Repr

/-- Resume offset computed at core.rs:238-248: the destination file's
current size when it exists, otherwise 0. -/
def resumeStartPos (fileExistsFlag : Bool) (fileLen : Nat) : Nat :=
  if fileExistsFlag then fileLen else 0

/-- Range header value built at core.rs:413-417. -/
def rangeHeaderFor (startPos : Nat) : String :=
  if startPos > 0 then "bytes=" ++ toString startPos ++ "-" else "bytes=0-"

/-- The `should_use_range` condition of core.rs:410. -/
def shouldUseRange (startPos : Nat) (ft : FileType) : Bool :=
  decide (startPos > 0) || (ft == FileType.audio)

/-- Plan of one binary-stream attempt: early return when the file is
already complete (core.rs:257-260), otherwise a GET whose `Range` header
follows `should_use_range`. -/
def binaryStreamPlan (fileExistsFlag : Bool) (fileLen : Nat) (totalSize : Nat)
    (ft : FileType) : BinaryAttemptPlan :=
  let startPos := resumeStartPos fileExistsFlag fileLen
  if startPos ≥ totalSize ∧ totalSize > 0 then .skipSuccess
  else .request (if shouldUseRange startPos ft then some (rangeHeaderFor startPos) else none)

/-! #### Retry loop (claim C4), from `download_binary_stream`
(core.rs:278-381) and the status mapping in `run` (core.rs:204-222). -/

/-- Retry cap `MAX_RETRIES` of core.rs:279. -/
def MAX_RETRIES : Nat := 20

/-- The retry loop `for attempt in 1..=MAX_RETRIES` of core.rs:282-372,
over an abstract per-attempt outcome function. Returns the loop's result
together with the index of the last attempt performed. `Ok` returns at
once; a `StreamError` with attempts left continues; `RateLimited`
returns at once with the URL-tagged message (core.rs:355-364); any other
error returns at once. The out-of-range guard is the dead fall-through
after the loop (core.rs:377). -/
def retryFromAux (url : String) (attempts : Nat → Except DownloadError Unit)
    (attempt : Nat) : Except DownloadError Unit × Nat :=
  if attempt > MAX_RETRIES then
    (.error (.streamError ("下载失败，已重试 " ++ toString MAX_RETRIES ++ " 次")), MAX_RETRIES)
  else
    match attempts attempt with
    | .ok _ => (.ok (), attempt)
    | .error (.streamError msg) =>
      if attempt < MAX_RETRIES then retryFromAux url attempts (attempt + 1)
      else (.error (.streamError msg), attempt)
    | .error (.rateLimited _) =>
      (.error (.rateLimited ("下载过程中遇到访问限制，URL: " ++ url)), attempt)
    | .error e => (.error e, attempt)
termination_by MAX_RETRIES + 1 - attempt
decreasing_by simp [MAX_RETRIES] at *; omega

/-- Whole retry phase of `download_binary_stream`, starting at attempt 1. -/
def downloadBinaryStreamResult (url : String)
    (attempts : Nat → Except DownloadError Unit) : Except DownloadError Unit × Nat :=
  retryFromAux url attempts 1

/-- Terminal status assignment of `run` (core.rs:204-222): success is
`Completed`, `RateLimited` is `Skipped(msg)`, anything else is
`Error(e.to_string())`. -/
def runFinalStatus (result : Except DownloadError Unit) : TaskStatus :=
  match result with
  | .ok _ => .completed
  | .error (.rateLimited msg) => .skipped msg
  | .error e => .error (downloadErrorMessage e)

/-! #### Task table lookup (claim C10), from `get_task_status`
(core.rs:125-134). -/

/-- Result of running code that may panic. -/
inductive PanicOr (α : Type) where
  | panicked (msg : String)
  | returned (a : α)
deriving DecidableEq, Repr

/-- Status lookup in the task table (the `DashMap` keyed by task id,
projected to each task's status field). -/
def lookupTask (tasks : List (String × TaskStatus)) (taskId : String) : Option TaskStatus :=
  (tasks.find? (fun p => p.1 == taskId)).map Prod.snd

/-- Model of `DownloadCore::get_task_status` (core.rs:125-134): the map
lookup result is unwrapped with `.expect("任务不存在")` — a panic on a
missing id — and the status is then returned as `Some(status)`. -/
def getTaskStatus (tasks : List (String × TaskStatus)) (taskId : String) :
    PanicOr (Option TaskStatus) :=
  match lookupTask tasks taskId with
  | none => .panicked "任务不存在"
  | some st => .returned (some st)

/-! #### Worker-pool step relation (claim C2), from `add_task`
(core.rs:41-123) and the spawned `run`.

A task's life against the semaphore: `add_task` acquires a permit into
the local `_permit` guard (core.rs:48-52), probes the content, registers
the record, spawns the runner, and returns — dropping `_permit` at end of
scope. The spawned runner streams with no permit held. The model gives
each task a phase; a permit is held exactly while a task is inside
`add_task`. -/

/-- Phase of one task with respect to `add_task` and its spawned runner. -/
inductive TaskPhase where
  | notStarted
  | inAddTask
  | streaming
  | done
deriving DecidableEq, Repr

/-- Number of tasks currently in the given phase. -/
def countPhase (p : TaskPhase) (s : List TaskPhase) : Nat :=
  (s.filter (fun q => q == p)).length

/-- Permits held = tasks inside the `add_task` body (the `_permit` guard
lives exactly for that scope). -/
def permitsHeld (s : List TaskPhase) : Nat := countPhase .inAddTask s

/-- Tasks whose spawned runner is streaming a response body. -/
def streamingCount (s : List TaskPhase) : Nat := countPhase .streaming s

/-- One interleaving step of the pool: a task may enter `add_task` when a
permit is free; `add_task` returning releases its permit with the runner
spawned and streaming; a runner may finish. -/
inductive PoolStep (c : Nat) : List TaskPhase → List TaskPhase → Prop where
  | startAdd (s : List TaskPhase) (i : Nat) (hp : s.get? i = some .notStarted)
      (hperm : permitsHeld s < c) : PoolStep c s (s.set i .inAddTask)
  | finishAdd (s : List TaskPhase) (i : Nat) (hp : s.get? i = some .inAddTask) :
      PoolStep c s (s.set i .streaming)
  | finishStream (s : List TaskPhase) (i : Nat) (hp : s.get? i = some .streaming) :
      PoolStep c s (s.set i .done)

/-- Reachability under pool steps. -/
def PoolReachable (c : Nat) : List TaskPhase → List TaskPhase → Prop :=
  Relation.ReflTransGen (PoolStep c)

/-! ### HTTP client envelope handling (src/common/client/client.rs). -/

/-- Model of `ApiError` from src/common/api/error.rs (the variants the
embedded paths construct). -/
inductive ApiError where
  | reqwest (msg : String)
  | invalidResponse (msg : String)
  | authRequired
  | retryLater
  | accessDenied (msg : String)
  | operationTimeout
  | lockError
  | invalidSession
  | unknown (msg : String)
  | apiError (code : Int) (message : String)
  | displayError (msg : String)
  | qrCodeExpired
  | htmlResponse (body : String)
deriving DecidableEq, Repr

/-- Model of a `serde_json::Value`, with integer-representable and
non-integer numbers separated (only the former answer `as_i64`). -/
inductive JsonV where
  | null
  | bool (b : Bool)
  | int (n : Int)
  | float
  | str (s : String)
  | arr (xs : List JsonV)
  | obj (fields : List (String × JsonV))

/-- Field access `value.get(key)` on a JSON root (first match; `None` off
an object). -/
def jsonGet (v : JsonV) (key : String) : Option JsonV :=
  match v with
  | .obj fields => (fields.find? (fun p => p.1 == key)).map Prod.snd
  | _ => none

/-- Model of `Value::as_i64`. -/
def jsonAsInt : JsonV → Option Int
  | .int n => some n
  | _ => none

/-- Model of `Value::as_str`. -/
def jsonAsStr : JsonV → Option String
  | .str s => some s
  | _ => none

/-- Integer `code` of a JSON root, as `json_value.get("code").and_then(as_i64)`. -/
def jsonCodeOf (v : JsonV) : Option Int :=
  (jsonGet v "code").bind jsonAsInt

/-- Message string of a JSON root with the handler's fallback. -/
def jsonMessageOf (v : JsonV) : String :=
  ((jsonGet v "message").bind jsonAsStr).getD "Unknown error"

/-- Decoded, decompressed response body as the envelope handler sees it:
either it parses as JSON or it is plain text. -/
inductive RespBody where
  | jsonBody (v : JsonV)
  | textBody (s : String)

/-- Response passed to `handle_response`: the HTTP status code (reqwest's
`StatusCode` holds 100..=999) and the body. -/
structure HttpResponse where
  status : Nat
  body : RespBody

/-- reqwest's `StatusCode::is_server_error`: 500..=599. -/
def isServerError (status : Nat) : Bool :=
  decide (500 ≤ status) && decide (status < 600)

/-- Substring containment, modelling `str::contains` on string patterns. -/
def containsSub (s pat : String) : Bool :=
  decide (pat.data <:+: s.data)

/-- Model of `BiliClient::handle_response` (client.rs:157-214), generic
over the target type through the `decode` parameter (serde's
`from_value::<T>`): 5xx is `RetryLater`; a JSON root with a non-zero
integer `code` is `ApiError(code, message)`; otherwise the payload is
decoded, a mismatch being `InvalidResponse`; a non-JSON body is
`HtmlResponse` when it looks like HTML, else `InvalidResponse`. -/
def handleResponse (decode : JsonV → Option α) (resp : HttpResponse) : Except ApiError α :=
  if isServerError resp.status then .error .retryLater
  else
    match resp.body with
    | .jsonBody v =>
      let afterCode : Except ApiError α :=
        match decode v with
        | some t => .ok t
        | none => .error (.invalidResponse "结构匹配失败")
      (match jsonCodeOf v with
       | some code => if code ≠ 0 then .error (.apiError code (jsonMessageOf v)) else afterCode
       | none => afterCode)
    | .textBody text =>
      if containsSub text "<!DOCTYPE html>" || containsSub text "<html" then
        .error (.htmlResponse text)
      else .error (.invalidResponse text)

/-! ### Clip resolver (src/parser/detail_parser/common_video.rs). -/

/-- Model of `OwnerInfo`. -/
structure OwnerInfo where
  name : String
  mid : Int
deriving DecidableEq, Repr

/-- Model of `CommonVideoInfo` (common_video.rs:386-394). The
`redirect_url` field is deserialized from the `view` response. -/
structure CommonVideoInfo where
  redirect_url : Option String
  title : String
  pic : String
  desc : String
  owner : OwnerInfo
  cid : Int
  bvid : String
deriving DecidableEq, Repr

/-- Model of `CommonResponse<T>` (src/common/client/models/common.rs). -/
structure CommonResponse (α : Type) where
  code : Int
  message : String
  data : Option α
  result : Option α := none
deriving DecidableEq, Repr

/-- Model of `Mp4Info` (models/play_url.rs). -/
structure Mp4Info where
  order : Int := 0
  length : Int := 0
  size : Int := 0
  url : String
  backup_url : Option (List String) := none
  quality : Option Int := none
deriving DecidableEq, Repr

/-- Model of `DashInfo` (models/play_url.rs). -/
structure DashInfo where
  duration : Int := 0
  audio : List DashItem
  video : List DashItem
deriving DecidableEq, Repr

/-- Model of `PlayUrlData` (models/play_url.rs). -/
structure PlayUrlData where
  format : String := ""
  timelength : Int := 0
  quality : Option Int := none
  dash : Option DashInfo
  durl : Option (List Mp4Info)
deriving DecidableEq, Repr

/-- Model of `DownloadConfig` (models/common_video.rs). The `resolution`
is the platform quality id (`VideoQuality as i32`). -/
structure DownloadConfig where
  resolution : Int
  need_video : Bool := true
  need_audio : Bool := true
  need_danmaku : Bool := true
  need_subtitle : Bool := true
  merge : Bool := true
  output_format : String := "mp4"
  output_dir : String := "./downloads"
  concurrency : Nat := 4
  episode_range : Option String := none
deriving DecidableEq, Repr

/-- Model of `DownloadTask` (src/downloader/models.rs). -/
structure DownloadTask where
  url : String
  file_type : FileType
  name : String
  output_path : String
  temp_path : String
  metadata : List (String × String)
deriving DecidableEq, Repr

/-- Constructor `DownloadTask::new`, with the source's argument order. -/
def DownloadTask.new (url : String) (ft : FileType) (name outputPath tempPath : String)
    (metadata : List (String × String)) : DownloadTask :=
  ⟨url, ft, name, outputPath, tempPath, metadata⟩

/-- Model of `DownloadType` as used by common_video.rs (a tag). -/
inductive DownloadType where
  | commonVideo
  | bangumi
  | course
deriving DecidableEq, Repr

/-- Model of `ParsedMeta` as built by `parse_with_options` (common_video.rs:52-56). -/
structure ParsedMeta where
  title : String
  download_type : DownloadType
  download_items : List DownloadTask
deriving DecidableEq, Repr

/-- Model of `DanmakuHandler::get_url`: the danmaku XML address per cid. -/
def danmakuGetUrl (cid : Int) : Except String String :=
  .ok ("https://comment.bilibili.com/" ++ toString cid ++ ".xml")

/-- Model of `CommonVideoParser::get_video_info`'s response handling
(common_video.rs:85-113): map non-zero codes to explanatory parse errors
and unwrap the payload. The HTTP exchange itself is abstracted into the
`resp` argument. -/
def getVideoInfo (resp : CommonResponse CommonVideoInfo) : Except ParseError CommonVideoInfo :=
  if resp.code ≠ 0 then
    if resp.code = -403 then
      .error (.parseError ("访问被拒绝（-403）: " ++ resp.message ++
        "。可能原因：1. 视频需要登录或大会员权限 2. 视频被删除或私密 3. 地区限制"))
    else if resp.code = -404 then
      .error (.parseError ("视频不存在（-404）: " ++ resp.message ++
        "。视频可能已被删除或URL错误"))
    else if resp.code = 62002 then
      .error (.parseError ("视频不可见（62002）: " ++ resp.message ++
        "。视频可能是私密视频或需要特定权限"))
    else if resp.code = 62012 then
      .error (.parseError ("视频审核中（62012）: " ++ resp.message ++
        "。视频正在审核，暂时无法访问"))
    else
      .error (.parseError ("API返回错误（" ++ toString resp.code ++ "）: " ++ resp.message))
  else
    match resp.data with
    | some info => .ok info
    | none => .error (.parseError "API响应中未找到视频信息")

/-- Model of `CommonVideoParser::get_play_url`'s response handling
(common_video.rs:141-172): map non-zero codes, unwrap the payload, and
reject a payload carrying neither `dash` nor `durl`. -/
def getPlayUrl (resp : CommonResponse PlayUrlData) : Except ParseError PlayUrlData :=
  if resp.code ≠ 0 then
    if resp.code = -403 then
      .error (.parseError ("播放地址获取被拒绝（-403）: " ++ resp.message ++
        "。可能原因：1. 清晰度需要大会员权限 2. Cookie已过期 3. 需要登录"))
    else if resp.code = -404 then
      .error (.parseError ("播放地址不存在（-404）: " ++ resp.message ++ "。视频可能已被删除"))
    else if resp.code = -10403 then
      .error (.parseError ("大会员专享（-10403）: " ++ resp.message ++
        "。当前清晰度需要大会员权限，请登录大会员账号或选择较低清晰度"))
    else
      .error (.parseError ("播放地址API返回错误（" ++ toString resp.code ++ "）: " ++ resp.message))
  else
    match resp.data with
    | none => .error (.parseError "未找到播放地址信息")
    | some data =>
      if data.dash.isNone ∧ data.durl.isNone then .error (.parseError "未解析出播放地址")
      else .ok data

/-- The `danmaku_download_task` binding of `create_video_meta`
(common_video.rs:268-281): build a danmaku task when requested (the `?`
on `DanmakuHandler::get_url` makes this step fallible). -/
def danmakuTaskOf (videoInfo : CommonVideoInfo) (config : DownloadConfig) :
    Except ParseError (Option DownloadTask) :=
  if config.need_danmaku then
    match danmakuGetUrl videoInfo.cid with
    | .error e => .error (.parseError e)
    | .ok url =>
      .ok (some (DownloadTask.new url .danmaku (videoInfo.title ++ ".xml")
        ("./tmp/" ++ videoInfo.title ++ "-danmaku.xml") (toString videoInfo.cid)
        [("desc", videoInfo.desc)]))
  else .ok none

/-- The `video_stream_task` binding of `create_video_meta`
(common_video.rs:287-301): a DASH video task when video is requested and
`dash` is present, through `select_video_stream`. -/
def videoTaskOf (videoInfo : CommonVideoInfo) (config : DownloadConfig)
    (playInfo : PlayUrlData) : Except ParseError (Option DownloadTask) :=
  match playInfo.dash with
  | some dashInfo =>
    if config.need_video then
      match selectVideoStream dashInfo.video config.resolution with
      | .error e => .error e
      | .ok urlOpt =>
        .ok (urlOpt.map (fun videoUrl =>
          DownloadTask.new videoUrl .video (videoInfo.title ++ ".mp4")
            ("./tmp/" ++ videoInfo.title ++ "-video.mp4") (toString videoInfo.cid)
            [("desc", videoInfo.desc)]))
    else .ok none
  | none => .ok none

/-- The `audio_stream_task` binding of `create_video_meta`
(common_video.rs:308-322): a DASH audio task when audio is requested and
`dash` is present, through `select_audio_stream`. -/
def audioTaskOf (videoInfo : CommonVideoInfo) (config : DownloadConfig)
    (playInfo : PlayUrlData) : Except ParseError (Option DownloadTask) :=
  match playInfo.dash with
  | some dashInfo =>
    if config.need_audio then
      match selectAudioStream dashInfo.audio with
      | .error e => .error e
      | .ok urlOpt =>
        .ok (urlOpt.map (fun audioUrl =>
          DownloadTask.new audioUrl .audio (videoInfo.title ++ ".mp3")
            ("./tmp/" ++ videoInfo.title ++ "-audio.mp3") (toString videoInfo.cid)
            [("desc", videoInfo.desc)]))
    else .ok none
  | none => .ok none

/-- The `mp4_stream_task` binding of `create_video_meta`
(common_video.rs:329-348): a progressive video task from the first
`durl` entry when video is requested and `durl` is present. -/
def mp4TaskOf (videoInfo : CommonVideoInfo) (config : DownloadConfig)
    (playInfo : PlayUrlData) : Option DownloadTask :=
  if config.need_video ∧ playInfo.durl.isSome then
    (playInfo.durl.bind List.head?).map (fun mp4Info =>
      DownloadTask.new mp4Info.url .video (videoInfo.title ++ ".mp4")
        ("./tmp/" ++ videoInfo.title ++ "-durl-video.mp4") (toString videoInfo.cid)
        [("desc", videoInfo.desc)])
  else none

/-- Model of `CommonVideoParser::create_video_meta` (common_video.rs:257-356):
resolve the play url, then push — in order — an optional danmaku task, an
optional DASH video task, an optional DASH audio task, and an optional
progressive (`durl`) video task, each gated on the `need_*` flags. -/
def createVideoMeta (videoInfo : CommonVideoInfo) (config : DownloadConfig)
    (playResp : CommonResponse PlayUrlData) : Except ParseError (List DownloadTask) := do
  let playInfo ← getPlayUrl playResp
  let danmakuTask ← danmakuTaskOf videoInfo config
  let videoTask ← videoTaskOf videoInfo config playInfo
  let audioTask ← audioTaskOf videoInfo config playInfo
  let mp4Task := mp4TaskOf videoInfo config playInfo
  pure (danmakuTask.toList ++ videoTask.toList ++ audioTask.toList ++ mp4Task.toList)

/-- Model of `CommonVideoParser::parse_with_options` (common_video.rs:22-57)
after the options/url-kind destructuring: require a `bvid`, run
`get_video_info` on the `view` response, build the work items, and wrap
them in a `ParsedMeta`. The `view` and `playurl` HTTP responses are the
`viewResp` and `playResp` inputs. -/
def parseWithOptions (bvidOpt : Option String) (config : DownloadConfig)
    (viewResp : CommonResponse CommonVideoInfo) (playResp : CommonResponse PlayUrlData) :
    Except ParseError ParsedMeta := do
  let _bvid ← match bvidOpt with
    | some b => pure b
    | none => throw (ParseError.parseError "未找到bvid")
  let videoInfo ← getVideoInfo viewResp
  let items ← createVideoMeta videoInfo config playResp
  pure ⟨videoInfo.title, .commonVideo, items⟩

/-- Number of Video-typed tasks in a list. -/
def countVideoTasks (l : List DownloadTask) : Nat :=
  (l.filter (fun t => t.file_type == .video)).length

/-- Number of Audio-typed tasks in a list. -/
def countAudioTasks (l : List DownloadTask) : Nat :=
  (l.filter (fun t => t.file_type == .audio)).length

/-- Task list of a resolver result (empty on error); lets counterexample
statements stay binder-free. -/
def okTasks (r : Except ParseError (List DownloadTask)) : List DownloadTask :=
  match r with
  | .ok l => l
  | .error _ => []

/-! ## Theorems -/

/-! ### Claim C1 — WBI signing output order -/

/-- Claim C1: the claim states that for every parameter map and key pair
the query string returned by `WbiUtils::enc_wbi` is sorted
lexicographically by parameter name. The code does sort (`sorted_by`)
but then collects the sorted pairs into a fresh `HashMap`, whose `iter()`
order is arbitrary, and both the `w_rid` digest input and the final
query are built in that arbitrary order. This theorem evaluates the
embedded `enc_wbi` at the failing input — parameters `a=1`, `b=2`,
timestamp 0, with `List.reverse` as the (perfectly legitimate,
permutation-valid) iteration order of the intermediate map — and shows
the emitted key order `w_rid, a, b, wts`, which is not sorted, refuting
the sortedness part of the claim. -/
theorem c1_enc_wbi_order_not_sorted :
    encWbi (fun _ => "0") List.reverse List.reverse [("a", "1"), ("b", "2")] 0 "" "" =
      "w_rid=0&a=1&b=2&wts=0" ∧
    queryKeys "w_rid=0&a=1&b=2&wts=0" = ["w_rid", "a", "b", "wts"] ∧
    stringsSorted ["w_rid", "a", "b", "wts"] = false := by
  exact ⟨by decide, by decide, by decide⟩

/-! ### Claim C2 — semaphore does not bound concurrent transfers -/

/-- Claim C2: the claim states that at most `concurrency` task runners
stream response bodies concurrently, the permit being held for the
duration of the transfer. In the code the permit guard `_permit`
(core.rs:48-52) is dropped when `add_task` returns, while the transfer
runs in the spawned task with no permit. In the step model this means a
task may move to `streaming` as `add_task` returns, freeing the permit.
This theorem exhibits the failing execution: with `concurrency = 1` and
two `add_task` calls in sequence, the state with both runners streaming
at once is reachable — 2 concurrent transfers against a pool of 1. -/
theorem c2_pool_overruns_concurrency :
    PoolReachable 1 [TaskPhase.notStarted, TaskPhase.notStarted]
      [TaskPhase.streaming, TaskPhase.streaming] ∧
    streamingCount [TaskPhase.streaming, TaskPhase.streaming] = 2 := by
  constructor
  · have h1 : PoolStep 1 [TaskPhase.notStarted, TaskPhase.notStarted]
        [TaskPhase.inAddTask, TaskPhase.notStarted] :=
      PoolStep.startAdd [TaskPhase.notStarted, TaskPhase.notStarted] 0 rfl (by decide)
    have h2 : PoolStep 1 [TaskPhase.inAddTask, TaskPhase.notStarted]
        [TaskPhase.streaming, TaskPhase.notStarted] :=
      PoolStep.finishAdd [TaskPhase.inAddTask, TaskPhase.notStarted] 0 rfl
    have h3 : PoolStep 1 [TaskPhase.streaming, TaskPhase.notStarted]
        [TaskPhase.streaming, TaskPhase.inAddTask] :=
      PoolStep.startAdd [TaskPhase.streaming, TaskPhase.notStarted] 1 rfl (by decide)
    have h4 : PoolStep 1 [TaskPhase.streaming, TaskPhase.inAddTask]
        [TaskPhase.streaming, TaskPhase.streaming] :=
      PoolStep.finishAdd [TaskPhase.streaming, TaskPhase.inAddTask] 1 rfl
    exact Relation.ReflTransGen.head h1 (Relation.ReflTransGen.head h2
      (Relation.ReflTransGen.head h3 (Relation.ReflTransGen.head h4 Relation.ReflTransGen.refl)))
  · decide

/-! ### Claim C3 — resume offset and Range header -/

/-- Claim C3: for every BinaryStream attempt, the resume offset equals
the destination file's size when it exists and 0 otherwise; when the
offset already covers a positive total size the attempt returns success
without a request; and a `Range` header is attached iff the offset is
positive or the item is Audio, with `bytes=0-` used for Audio at
offset 0. -/
theorem c3_binary_stream_resume_plan (ex : Bool) (len total : Nat) (ft : FileType) :
    (ex = true → resumeStartPos ex len = len) ∧
    (ex = false → resumeStartPos ex len = 0) ∧
    (resumeStartPos ex len ≥ total → total > 0 →
      binaryStreamPlan ex len total ft = .skipSuccess) ∧
    (∀ hdr, binaryStreamPlan ex len total ft = .request hdr →
      (hdr.isSome = true ↔ (resumeStartPos ex len > 0 ∨ ft = .audio))) ∧
    (ft = .audio → resumeStartPos ex len = 0 →
      ¬(resumeStartPos ex len ≥ total ∧ total > 0) →
      binaryStreamPlan ex len total ft = .request (some "bytes=0-")) := by
  refine ⟨fun h => by simp [resumeStartPos, h], fun h => by simp [resumeStartPos, h], ?_, ?_, ?_⟩
  · intro h1 h2
    simp only [binaryStreamPlan]
    rw [if_pos ⟨h1, h2⟩]
  · intro hdr hreq
    by_cases hskip : resumeStartPos ex len ≥ total ∧ total > 0
    · simp only [binaryStreamPlan] at hreq
      rw [if_pos hskip] at hreq
      exact absurd hreq (by simp)
    · simp only [binaryStreamPlan] at hreq
      rw [if_neg hskip] at hreq
      by_cases hrange : shouldUseRange (resumeStartPos ex len) ft = true
      · rw [if_pos hrange] at hreq
        have hhdr : hdr = some (rangeHeaderFor (resumeStartPos ex len)) := by
          injection hreq.symm
        subst hhdr
        simp only [Option.isSome_some, true_iff]
        simpa [shouldUseRange] using hrange
      · rw [if_neg hrange] at hreq
        have hhdr : hdr = none := by injection hreq.symm
        subst hhdr
        simp only [Option.isSome_none, Bool.false_eq_true, false_iff]
        intro hcon
        apply hrange
        rcases hcon with h | h
        · simp [shouldUseRange, h]
        · simp [shouldUseRange, h]
  · intro hft hstart hskip
    simp only [binaryStreamPlan]
    rw [if_neg hskip]
    have : shouldUseRange (resumeStartPos ex len) ft = true := by
      simp [shouldUseRange, hft]
    rw [if_pos this]
    simp [rangeHeaderFor, hstart]

/-- Witness for claim C3 at a concrete input: a fresh Audio download with
a 10-byte total gets a `Range: bytes=0-` request. -/
theorem c3_binary_stream_resume_plan_witness :
    binaryStreamPlan false 0 10 FileType.audio = .request (some "bytes=0-") :=
  (c3_binary_stream_resume_plan false 0 10 FileType.audio).2.2.2.2 rfl rfl (by decide)

/-! ### Claim C9 — redirect_url is parsed but ignored -/

/-- View response for the redirect evaluation: `redirect_url` is present. -/
def cex9Info : CommonVideoInfo :=
  ⟨some "https://www.bilibili.com/bangumi/play/ep99999", "T", "P", "D", ⟨"O", 1⟩, 7, "BV1x"⟩

/-- DASH descriptor for the redirect evaluation. -/
def cex9Dash : DashInfo :=
  { audio := [{ id := 30280, base_url := "aurl" }], video := [{ id := 80, base_url := "vurl" }] }

/-- Play response for the redirect evaluation: a normal DASH payload. -/
def cex9Play : CommonResponse PlayUrlData :=
  ⟨0, "", some { dash := some cex9Dash, durl := none }, none⟩

/-- Claim C9: the claim states that a `view` response carrying
`redirect_url` makes the resolver surface a `Redirect(url)` failure
instead of proceeding. In the cited resolver
(`CommonVideoParser::parse_with_options`, common_video.rs:22-57) the
deserialized `redirect_url` field is never inspected: resolution
proceeds normally. Evaluating the embedded resolver at a response whose
`redirect_url` is present shows it succeeds (so it is not any failure,
in particular not `Redirect`). -/
theorem c9_redirect_url_ignored :
    cex9Info.redirect_url = some "https://www.bilibili.com/bangumi/play/ep99999" ∧
    (parseWithOptions (some "BV1x") { resolution := 80 } ⟨0, "", some cex9Info, none⟩
      cex9Play).isOk = true := by
  exact ⟨rfl, by decide⟩

/-! ### Claim C10 — get_task_status panics on unknown ids -/

/-- Claim C10: for every task id absent from the task table,
`DownloadCore::get_task_status` panics through
`.expect("任务不存在")` rather than returning `None`; whenever it
returns normally the result is `Some(status)`. -/
theorem c10_get_task_status_panics (tasks : List (String × TaskStatus)) (taskId : String) :
    (lookupTask tasks taskId = none → getTaskStatus tasks taskId = .panicked "任务不存在") ∧
    (∀ r, getTaskStatus tasks taskId = .returned r → r.isSome = true) := by
  constructor
  · intro h
    simp [getTaskStatus, h]
  · intro r hr
    unfold getTaskStatus at hr
    cases hl : lookupTask tasks taskId with
    | none => rw [hl] at hr; exact absurd hr (by simp)
    | some st =>
      rw [hl] at hr
      have : some st = r := by injection hr
      rw [← this]
      rfl

/-- Witness for claim C10 at concrete inputs: the empty table panics for
id `t1`, and a table holding `a ↦ Queued` returns `some Queued`. -/
theorem c10_get_task_status_panics_witness :
    getTaskStatus [] "t1" = .panicked "任务不存在" ∧
    (some TaskStatus.queued).isSome = true :=
  ⟨(c10_get_task_status_panics [] "t1").1 rfl,
   (c10_get_task_status_panics [("a", TaskStatus.queued)] "a").2 (some TaskStatus.queued) rfl⟩

/-! ### Claim C4 — RateLimited is terminal, StreamError retries to the cap -/

/-- Unfolding step of the retry loop: a `StreamError` attempt below the
cap continues with the next attempt. -/
theorem retryFromAux_stream_step (url : String) (attempts : Nat → Except DownloadError Unit)
    (a : Nat) (m : String) (ha : a < MAX_RETRIES)
    (hs : attempts a = .error (.streamError m)) :
    retryFromAux url attempts a = retryFromAux url attempts (a + 1) := by
  conv_lhs => rw [retryFromAux.eq_def]
  rw [if_neg (by omega), hs]
  show (if a < MAX_RETRIES then retryFromAux url attempts (a + 1)
    else (Except.error (DownloadError.streamError m), a)) = retryFromAux url attempts (a + 1)
  rw [if_pos ha]

/-- Unfolding step: a `RateLimited` attempt within the loop returns at
once with the URL-tagged rate-limit error. -/
theorem retryFromAux_rate_limited (url : String) (attempts : Nat → Except DownloadError Unit)
    (a : Nat) (m : String) (ha : a ≤ MAX_RETRIES)
    (hs : attempts a = .error (.rateLimited m)) :
    retryFromAux url attempts a =
      (.error (.rateLimited ("下载过程中遇到访问限制，URL: " ++ url)), a) := by
  conv_lhs => rw [retryFromAux.eq_def]
  rw [if_neg (by omega), hs]

/-- Unfolding step: a `StreamError` at the final attempt ends the loop
with that error. -/
theorem retryFromAux_stream_last (url : String) (attempts : Nat → Except DownloadError Unit)
    (m : String) (hs : attempts MAX_RETRIES = .error (.streamError m)) :
    retryFromAux url attempts MAX_RETRIES = (.error (.streamError m), MAX_RETRIES) := by
  conv_lhs => rw [retryFromAux.eq_def]
  rw [if_neg (by omega), hs]
  show (if MAX_RETRIES < MAX_RETRIES then retryFromAux url attempts (MAX_RETRIES + 1)
    else (Except.error (DownloadError.streamError m), MAX_RETRIES)) =
      (Except.error (DownloadError.streamError m), MAX_RETRIES)
  rw [if_neg (by omega)]

/-- The loop skips over a run of `StreamError` attempts: if every attempt
in `[a, k)` is a `StreamError`, the loop's value from `a` equals its
value from `k`. -/
theorem retryFromAux_advance (url : String) (attempts : Nat → Except DownloadError Unit)
    (k : Nat) (hk : k ≤ MAX_RETRIES) :
    ∀ d a, k - a = d → a ≤ k →
      (∀ i, a ≤ i → i < k → ∃ m, attempts i = .error (.streamError m)) →
      retryFromAux url attempts a = retryFromAux url attempts k := by
  intro d
  induction d with
  | zero =>
    intro a hd _ _
    have : a = k := by omega
    rw [this]
  | succ n ih =>
    intro a hd hak hstr
    have hlt : a < k := by omega
    obtain ⟨m, hm⟩ := hstr a le_rfl hlt
    rw [retryFromAux_stream_step url attempts a m (by omega) hm]
    exact ih (a + 1) (by omega) (by omega) (fun i hi1 hi2 => hstr i (by omega) hi2)

/-- Claim C4: a `RateLimited` attempt is terminal — the retry loop of
`download_binary_stream` performs no further attempts (the last attempt
index equals the rate-limited one) and the task's final status is
`Skipped(reason)`, never `Error` or `Failed`; whereas a run of plain
stream errors is retried up to the 20-attempt cap and the task then ends
in the terminal `Error` state. -/
theorem c4_rate_limited_terminal :
    (∀ (url : String) (attempts : Nat → Except DownloadError Unit) (k : Nat) (msg : String),
      1 ≤ k → k ≤ MAX_RETRIES →
      (∀ i, 1 ≤ i → i < k → ∃ m, attempts i = .error (.streamError m)) →
      attempts k = .error (.rateLimited msg) →
      downloadBinaryStreamResult url attempts =
        (.error (.rateLimited ("下载过程中遇到访问限制，URL: " ++ url)), k) ∧
      runFinalStatus (downloadBinaryStreamResult url attempts).1 =
        .skipped ("下载过程中遇到访问限制，URL: " ++ url)) ∧
    (∀ (url : String) (attempts : Nat → Except DownloadError Unit) (m : Nat → String),
      (∀ i, 1 ≤ i → i ≤ MAX_RETRIES → attempts i = .error (.streamError (m i))) →
      downloadBinaryStreamResult url attempts = (.error (.streamError (m MAX_RETRIES)), MAX_RETRIES) ∧
      runFinalStatus (downloadBinaryStreamResult url attempts).1 =
        .error ("流错误: " ++ m MAX_RETRIES) ∧
      (∀ reason, runFinalStatus (downloadBinaryStreamResult url attempts).1 ≠ .skipped reason) ∧
      runFinalStatus (downloadBinaryStreamResult url attempts).1 ≠ .failed) := by
  constructor
  · intro url attempts k msg h1 hk hstr hrate
    have hadv := retryFromAux_advance url attempts k hk (k - 1) 1 rfl (by omega)
      (fun i hi1 hi2 => hstr i hi1 hi2)
    have hres : downloadBinaryStreamResult url attempts =
        (.error (.rateLimited ("下载过程中遇到访问限制，URL: " ++ url)), k) := by
      unfold downloadBinaryStreamResult
      rw [hadv]
      exact retryFromAux_rate_limited url attempts k msg hk hrate
    refine ⟨hres, ?_⟩
    rw [hres]
    rfl
  · intro url attempts m hstr
    have hadv := retryFromAux_advance url attempts MAX_RETRIES le_rfl (MAX_RETRIES - 1) 1 rfl
      (by decide) (fun i hi1 hi2 => ⟨m i, hstr i hi1 (Nat.le_of_lt hi2)⟩)
    have hres : downloadBinaryStreamResult url attempts =
        (.error (.streamError (m MAX_RETRIES)), MAX_RETRIES) := by
      unfold downloadBinaryStreamResult
      rw [hadv]
      exact retryFromAux_stream_last url attempts (m MAX_RETRIES)
        (hstr MAX_RETRIES (by decide) le_rfl)
    refine ⟨hres, ?_, ?_, ?_⟩
    · rw [hres]; rfl
    · intro reason
      rw [hres]
      simp [runFinalStatus]
    · rw [hres]
      simp [runFinalStatus]

/-- Attempt trace for the C4 witness: the very first attempt hits a rate
limit. -/
def c4wAttemptsRate : Nat → Except DownloadError Unit :=
  fun _ => .error (.rateLimited "denied")

/-- Attempt trace for the C4 witness: every attempt is a stream error. -/
def c4wAttemptsStream : Nat → Except DownloadError Unit :=
  fun _ => .error (.streamError "e")

/-- Witness for claim C4 at concrete attempt traces: a first-attempt rate
limit ends the loop at attempt 1 with status Skipped, and an all-failing
trace stops at attempt 20 with the stream error. -/
theorem c4_rate_limited_terminal_witness :
    downloadBinaryStreamResult "U" c4wAttemptsRate =
      (.error (.rateLimited "下载过程中遇到访问限制，URL: U"), 1) ∧
    runFinalStatus (downloadBinaryStreamResult "U" c4wAttemptsRate).1 =
      .skipped "下载过程中遇到访问限制，URL: U" ∧
    downloadBinaryStreamResult "U" c4wAttemptsStream = (.error (.streamError "e"), 20) := by
  have h1 := (c4_rate_limited_terminal.1 "U" c4wAttemptsRate 1 "denied" le_rfl (by decide)
    (fun i hi1 hi2 => absurd (lt_of_le_of_lt hi1 hi2) (lt_irrefl 1)) rfl)
  have h2 := (c4_rate_limited_terminal.2 "U" c4wAttemptsStream (fun _ => "e")
    (fun i _ _ => rfl))
  exact ⟨h1.1, h1.2, h2.1⟩

/-! ### Claim C7 — episode range parsing -/

/-- Monadic inversion for `Except` bind. -/
theorem exceptBind_ok {ε α β : Type} {e : Except ε α} {f : α → Except ε β} {b : β}
    (h : e >>= f = .ok b) : ∃ a, e = .ok a ∧ f a = .ok b := by
  cases e with
  | error err => exact absurd h (by simp [Bind.bind, Except.bind])
  | ok a => exact ⟨a, rfl, by simpa [Bind.bind, Except.bind] using h⟩

/-- The head (with default) of a non-empty list is a member. -/
theorem headD_mem {α : Type} (l : List α) (d : α) (h : l ≠ []) : l.headD d ∈ l := by
  cases l with
  | nil => exact absurd rfl h
  | cons x xs => simp

/-- The insertion step matches Mathlib's `orderedInsert`. -/
theorem insertBy_eq_orderedInsert {α : Type} (r : α → α → Prop) [DecidableRel r] (x : α) :
    ∀ l, insertBy (fun a b => decide (r a b)) x l = l.orderedInsert r x := by
  intro l
  induction l with
  | nil => rfl
  | cons y ys ih =>
    simp only [insertBy, List.orderedInsert]
    by_cases h : r x y
    · simp [h]
    · simp [h, ih]

/-- The stable sort matches Mathlib's `insertionSort`. -/
theorem sortBy_eq_insertionSort {α : Type} (r : α → α → Prop) [DecidableRel r] :
    ∀ l, sortBy (fun a b => decide (r a b)) l = l.insertionSort r := by
  intro l
  induction l with
  | nil => rfl
  | cons x xs ih => simp only [sortBy, List.insertionSort, ih, insertBy_eq_orderedInsert]

/-- Membership is preserved by the integer sort. -/
theorem mem_sortBy_int {l : List Int} {x : Int} :
    x ∈ sortBy (fun a b => decide (a ≤ b)) l ↔ x ∈ l := by
  rw [sortBy_eq_insertionSort (fun a b : Int => a ≤ b) l]
  exact (List.perm_insertionSort _ l).mem_iff

/-- The integer sort produces a `≤`-chain. -/
theorem chain_le_sortBy_int (l : List Int) :
    List.Chain' (fun a b => a ≤ b) (sortBy (fun a b => decide (a ≤ b)) l) := by
  rw [sortBy_eq_insertionSort (fun a b : Int => a ≤ b) l]
  exact (List.sorted_insertionSort _ l).chain'

/-- Consecutive dedup keeps the head. -/
theorem dedupConsec_head (y : Int) (rest : List Int) :
    ∃ t, dedupConsec (y :: rest) = y :: t := by
  induction rest generalizing y with
  | nil => exact ⟨[], rfl⟩
  | cons z r ih =>
    by_cases h : y = z
    · obtain ⟨t, ht⟩ := ih z
      refine ⟨t, ?_⟩
      rw [show dedupConsec (y :: z :: r) = dedupConsec (z :: r) by
        simp only [dedupConsec, if_pos h]]
      rw [ht, h]
    · exact ⟨dedupConsec (z :: r), by simp only [dedupConsec, if_neg h]⟩

/-- Consecutive dedup of a `≤`-chain is a strict `<`-chain. -/
theorem dedupConsec_chain_lt :
    ∀ l : List Int, List.Chain' (fun a b => a ≤ b) l →
      List.Chain' (fun a b => a < b) (dedupConsec l) := by
  intro l
  induction l with
  | nil => intro _; simp [dedupConsec]
  | cons x xs ih =>
    cases xs with
    | nil => intro _; simp [dedupConsec]
    | cons y r =>
      intro h
      obtain ⟨hxy, hrest⟩ := List.chain'_cons.mp h
      by_cases hxyeq : x = y
      · rw [show dedupConsec (x :: y :: r) = dedupConsec (y :: r) by
          simp only [dedupConsec, if_pos hxyeq]]
        exact ih hrest
      · rw [show dedupConsec (x :: y :: r) = x :: dedupConsec (y :: r) by
          simp only [dedupConsec, if_neg hxyeq]]
        obtain ⟨t, ht⟩ := dedupConsec_head y r
        rw [ht]
        exact List.chain'_cons.mpr ⟨lt_of_le_of_ne hxy hxyeq, ht ▸ ih hrest⟩

/-- Consecutive dedup only drops elements. -/
theorem mem_dedupConsec : ∀ (l : List Int) (x : Int), x ∈ dedupConsec l → x ∈ l := by
  intro l
  induction l with
  | nil => intro x hx; simp [dedupConsec] at hx
  | cons y xs ih =>
    cases xs with
    | nil => intro x hx; simpa [dedupConsec] using hx
    | cons z r =>
      intro x hx
      by_cases h : y = z
      · rw [show dedupConsec (y :: z :: r) = dedupConsec (z :: r) by
          simp only [dedupConsec, if_pos h]] at hx
        exact List.mem_cons_of_mem y (ih x hx)
      · rw [show dedupConsec (y :: z :: r) = y :: dedupConsec (z :: r) by
          simp only [dedupConsec, if_neg h]] at hx
        rcases List.mem_cons.mp hx with rfl | hx2
        · exact List.mem_cons_self x (z :: r)
        · exact List.mem_cons_of_mem y (ih x hx2)

/-- Splitting never yields an empty list of pieces. -/
theorem splitChar_ne_nil (sep : Char) : ∀ cs, splitChar sep cs ≠ [] := by
  intro cs
  induction cs with
  | nil => simp [splitChar]
  | cons c rest ih =>
    simp only [splitChar]
    by_cases h : c = sep
    · simp [h]
    · rw [if_neg h]
      cases hr : splitChar sep rest with
      | nil => simp
      | cons q t => simp

/-- A piece produced by splitting does not contain the separator. -/
theorem mem_splitChar_not_mem (sep : Char) :
    ∀ cs p, p ∈ splitChar sep cs → sep ∉ p := by
  intro cs
  induction cs with
  | nil =>
    intro p hp
    simp only [splitChar, List.mem_singleton] at hp
    subst hp
    simp
  | cons c rest ih =>
    intro p hp
    simp only [splitChar] at hp
    by_cases h : c = sep
    · rw [if_pos h] at hp
      rcases List.mem_cons.mp hp with rfl | h0
      · simp
      · exact ih p h0
    · rw [if_neg h] at hp
      cases hr : splitChar sep rest with
      | nil =>
        rw [hr] at hp
        simp only [List.mem_singleton] at hp
        subst hp
        simp only [List.mem_singleton]
        exact fun he => h he.symm
      | cons q t =>
        rw [hr] at hp
        rcases List.mem_cons.mp hp with rfl | h0
        · intro hmem
          rcases List.mem_cons.mp hmem with he | hq
          · exact h he.symm
          · exact ih q (hr ▸ List.mem_cons_self q t) hq
        · exact ih p (hr ▸ List.mem_cons_of_mem q h0)

/-- A successfully parsed i64 over a dash-free token is non-negative. -/
theorem parseI64_nonneg : ∀ (cs : List Char) (v : Int),
    parseI64 cs = some v → '-' ∉ cs → 0 ≤ v := by
  intro cs v h hnm
  cases cs with
  | nil => simp [parseI64] at h
  | cons c rest =>
    have hc : c ≠ '-' := fun he => hnm (he ▸ List.mem_cons_self c rest)
    simp only [parseI64, if_neg hc] at h
    by_cases hp : c = '+'
    · rw [if_pos hp] at h
      cases hd : digitsVal rest with
      | none => rw [hd] at h; exact absurd h (by simp)
      | some n =>
        rw [hd] at h
        simp only at h
        split at h
        · rename_i hfalse
          exact absurd hfalse (by simp)
        · split at h
          · have : (n : Int) = v := by injection h
            rw [← this]
            omega
          · exact absurd h (by simp)
    · rw [if_neg hp] at h
      cases hd : digitsVal (c :: rest) with
      | none => rw [hd] at h; exact absurd h (by simp)
      | some n =>
        rw [hd] at h
        simp only at h
        split at h
        · rename_i hfalse
          exact absurd hfalse (by simp)
        · split at h
          · have : (n : Int) = v := by injection h
            rw [← this]
            omega
          · exact absurd h (by simp)

/-- Members of an inclusive range starting at a non-negative bound are
non-negative. -/
theorem rangeInclusive_nonneg (lo hi x : Int) (h0 : 0 ≤ lo)
    (hx : x ∈ rangeInclusive lo hi) : 0 ≤ x := by
  simp only [rangeInclusive, List.mem_map, List.mem_range, Int.ofNat_eq_natCast] at hx
  obtain ⟨i, hibnd, rfl⟩ := hx
  omega

/-- Every element a range-part parse emits is non-negative. -/
theorem parseRangePart_nonneg : ∀ (part : List Char) (xs : List Int),
    parseRangePart part = .ok xs → ∀ x ∈ xs, 0 ≤ x := by
  intro part xs h x hx
  simp only [parseRangePart] at h
  split at h
  · split at h
    · exact absurd h (by simp)
    · split at h
      · exact absurd h (by simp)
      · rename_i lo hlo
        split at h
        · exact absurd h (by simp)
        · rename_i hi hhi
          split at h
          · exact absurd h (by simp)
          · have hxs : rangeInclusive lo hi = xs := by injection h
            have hlo0 : 0 ≤ lo := by
              apply parseI64_nonneg _ _ hlo
              exact mem_splitChar_not_mem '-' part _
                (headD_mem _ [] (splitChar_ne_nil '-' part))
            exact rangeInclusive_nonneg lo hi x hlo0 (hxs ▸ hx)
  · rename_i hdash
    split at h
    · exact absurd h (by simp)
    · rename_i ep hep
      have hxs : [ep] = xs := by injection h
      have hxep : x = ep := by
        rw [← hxs] at hx
        simpa using hx
      rw [hxep]
      exact parseI64_nonneg part ep hep hdash

/-- Every element the per-part loop collects is non-negative. -/
theorem collectParts_nonneg : ∀ (parts : List (List Char)) (xs : List Int),
    collectParts parts = .ok xs → ∀ x ∈ xs, 0 ≤ x := by
  intro parts
  induction parts with
  | nil =>
    intro xs h x hx
    have : ([] : List Int) = xs := by injection h
    rw [← this] at hx
    simp at hx
  | cons p rest ih =>
    intro xs h x hx
    obtain ⟨as, has, h2⟩ := exceptBind_ok h
    obtain ⟨bs, hbs, h3⟩ := exceptBind_ok h2
    have hxs : as ++ bs = xs := by injection h3
    rw [← hxs] at hx
    rcases List.mem_append.mp hx with hmem | hmem
    · exact parseRangePart_nonneg p as has x hmem
    · exact ih bs hbs x hmem

/-- A part that fails to parse makes the whole loop fail. -/
theorem collectParts_error_of_mem : ∀ (parts : List (List Char)) (part : List Char),
    part ∈ parts → (∃ e0, parseRangePart part = .error e0) →
    ∃ e, collectParts parts = .error e := by
  intro parts
  induction parts with
  | nil => intro part h; simp at h
  | cons q rest ih =>
    intro part hmem he
    rcases List.mem_cons.mp hmem with rfl | hmem2
    · obtain ⟨e0, he0⟩ := he
      exact ⟨e0, by simp [collectParts, he0, Bind.bind, Except.bind]⟩
    · cases hq : parseRangePart q with
      | error e0 => exact ⟨e0, by simp [collectParts, hq, Bind.bind, Except.bind]⟩
      | ok as =>
        obtain ⟨e, hee⟩ := ih part hmem2 he
        refine ⟨e, ?_⟩
        simp only [collectParts, hq, Bind.bind, Except.bind, hee]

/-- A loop failure surfaces from `parse_episode_range` unchanged. -/
theorem parseEpisodeRange_error_of_collect (s : String) (e : ParseError)
    (h : collectParts (splitChar ',' s.data) = .error e) :
    parseEpisodeRange s = .error e := by
  simp only [parseEpisodeRange, h, Bind.bind, Except.bind]

/-- Claim C7 (amended: elements are non-negative rather than at least 1 —
the parser accepts `0`): every accepted input yields a non-empty,
strictly increasing (sorted and deduplicated) list of non-negative
episode numbers; a range item with start greater than end is rejected
with an error, and a dash-free token that does not parse as an integer
is rejected with an error. -/
theorem c7_episode_range_parse (s : String) :
    (∀ l, parseEpisodeRange s = .ok l →
      l ≠ [] ∧ List.Chain' (fun a b => a < b) l ∧ ∀ x ∈ l, 0 ≤ x) ∧
    (∀ part, part ∈ splitChar ',' s.data → '-' ∈ part →
      ∀ lo hi, (splitChar '-' part).length = 2 →
        parseI64 ((splitChar '-' part).headD []) = some lo →
        parseI64 (((splitChar '-' part).drop 1).headD []) = some hi →
        lo > hi → ∃ e, parseEpisodeRange s = .error e) ∧
    (∀ part, part ∈ splitChar ',' s.data → '-' ∉ part → parseI64 part = none →
      ∃ e, parseEpisodeRange s = .error e) := by
  refine ⟨?_, ?_, ?_⟩
  · intro l h
    simp only [parseEpisodeRange] at h
    obtain ⟨episodes, heps, h2⟩ := exceptBind_ok h
    split at h2
    · exact absurd h2 (by simp)
    · rename_i hempty
      have hl : dedupConsec (sortBy (fun a b => decide (a ≤ b)) episodes) = l := by
        injection h2
      refine ⟨?_, ?_, ?_⟩
      · rw [← hl]
        intro hnil
        exact hempty (by simp [hnil])
      · rw [← hl]
        exact dedupConsec_chain_lt _ (chain_le_sortBy_int episodes)
      · intro x hx
        rw [← hl] at hx
        exact collectParts_nonneg _ episodes heps x
          (mem_sortBy_int.mp (mem_dedupConsec _ x hx))
  · intro part hmem hdash lo hi hlen hlo hhi hgt
    have herr : parseRangePart part = .error (.parseError "起始集数不能大于结束集数") := by
      simp only [parseRangePart, if_pos hdash, hlen, hlo, hhi]
      rw [if_neg (by simp), if_pos hgt]
    obtain ⟨e, he⟩ := collectParts_error_of_mem _ part hmem ⟨_, herr⟩
    exact ⟨e, parseEpisodeRange_error_of_collect s e he⟩
  · intro part hmem hdash hparse
    have herr : parseRangePart part = .error (.parseError "无效的集数") := by
      simp only [parseRangePart, if_neg hdash, hparse]
    obtain ⟨e, he⟩ := collectParts_error_of_mem _ part hmem ⟨_, herr⟩
    exact ⟨e, parseEpisodeRange_error_of_collect s e he⟩

/-- Counterexample to claim C7 as stated: the parser accepts `"0"` and
returns `[0]`, whose element is not at least 1 (the claim asserts every
element is ≥ 1). -/
theorem c7_episode_range_parse_counterexample :
    parseEpisodeRange "0" = .ok [0] ∧ ¬(1 ≤ (0 : Int)) := ⟨rfl, by decide⟩

/-- Witness for claim C7 at a concrete input: `"1-3,5"` parses to
`[1, 2, 3, 5]`, which is non-empty and strictly increasing. -/
theorem c7_episode_range_parse_witness :
    parseEpisodeRange "1-3,5" = .ok [1, 2, 3, 5] ∧
    ([1, 2, 3, 5] : List Int) ≠ [] ∧
    List.Chain' (fun a b => a < b) ([1, 2, 3, 5] : List Int) :=
  ⟨rfl, ((c7_episode_range_parse "1-3,5").1 [1, 2, 3, 5] rfl).1,
   ((c7_episode_range_parse "1-3,5").1 [1, 2, 3, 5] rfl).2.1⟩

/-! ### Claim C5 — envelope handling -/

/-- Claim C5 (amended: `RetryLater` is produced for statuses in 500..599 —
reqwest's `is_server_error` — not for every status ≥ 500): a 5xx status
yields `RetryLater`; outside 5xx, a JSON root with a non-zero integer
`code` yields `ApiError(code, message)`; a non-zero `code` never yields
a successfully decoded payload at any status; and a structural mismatch
of the payload (with no error code) yields `InvalidResponse`. -/
theorem c5_handle_response {α : Type} (decode : JsonV → Option α) (resp : HttpResponse) :
    (500 ≤ resp.status → resp.status < 600 →
      handleResponse decode resp = .error .retryLater) ∧
    (∀ v code, resp.body = .jsonBody v → jsonCodeOf v = some code → code ≠ 0 →
      (¬(500 ≤ resp.status ∧ resp.status < 600) →
        handleResponse decode resp = .error (.apiError code (jsonMessageOf v))) ∧
      ∀ t, handleResponse decode resp ≠ .ok t) ∧
    (∀ v, resp.body = .jsonBody v → (jsonCodeOf v = some 0 ∨ jsonCodeOf v = none) →
      decode v = none → ¬(500 ≤ resp.status ∧ resp.status < 600) →
      handleResponse decode resp = .error (.invalidResponse "结构匹配失败")) := by
  refine ⟨?_, ?_, ?_⟩
  · intro h1 h2
    simp only [handleResponse]
    rw [if_pos (by simp [isServerError]; omega)]
  · intro v code hbody hcode hnz
    constructor
    · intro hnot5xx
      simp only [handleResponse]
      rw [if_neg (by simp [isServerError]; omega), hbody]
      simp only [hcode, if_pos hnz]
    · intro t
      simp only [handleResponse]
      by_cases h5 : isServerError resp.status = true
      · rw [if_pos h5]
        simp
      · rw [if_neg h5, hbody]
        simp only [hcode, if_pos hnz]
        simp
  · intro v hbody hcode hdec hnot5xx
    simp only [handleResponse]
    rw [if_neg (by simp [isServerError]; omega), hbody]
    rcases hcode with h0 | h0
    · simp only [h0, hdec]
      rw [if_neg (by simp)]
    · simp only [h0, hdec]

/-- Counterexample to claim C5 as stated: status 999 (a real-world status,
outside reqwest's `is_server_error` range 500..599 yet ≥ 500) with a
non-zero-code JSON body yields `ApiError`, not `RetryLater`, although
the claim demands `RetryLater` for every status ≥ 500. -/
theorem c5_handle_response_counterexample :
    500 ≤ 999 ∧
    handleResponse (fun _ => (none : Option Unit))
      ⟨999, .jsonBody (.obj [("code", .int (-404)), ("message", .str "gone")])⟩ =
      .error (.apiError (-404) "gone") ∧
    (Except.error (.apiError (-404) "gone") : Except ApiError Unit) ≠
      .error .retryLater := by
  refine ⟨by omega, rfl, by simp⟩

/-- Witness for claim C5 at concrete responses: a 503 yields RetryLater;
a 200 with `code = -101` yields the ApiError and cannot decode. -/
theorem c5_handle_response_witness :
    handleResponse (fun _ => (none : Option Unit)) ⟨503, .textBody "oops"⟩ =
      .error .retryLater ∧
    handleResponse (fun _ => (none : Option Unit))
      ⟨200, .jsonBody (.obj [("code", .int (-101)), ("message", .str "未登录")])⟩ =
      .error (.apiError (-101) "未登录") ∧
    handleResponse (fun v => jsonAsInt v) ⟨200, .jsonBody (.str "nope")⟩ =
      .error (.invalidResponse "结构匹配失败") := by
  refine ⟨(c5_handle_response (fun _ => (none : Option Unit))
    ⟨503, .textBody "oops"⟩).1 (by decide) (by decide), ?_, ?_⟩
  · exact ((c5_handle_response (fun _ => (none : Option Unit))
      ⟨200, .jsonBody (.obj [("code", .int (-101)), ("message", .str "未登录")])⟩).2.1
      (.obj [("code", .int (-101)), ("message", .str "未登录")]) (-101) rfl (by decide)
      (by decide)).1 (by decide)
  · exact (c5_handle_response (fun v => jsonAsInt v)
      ⟨200, .jsonBody (.str "nope")⟩).2.2 (.str "nope") rfl (Or.inr rfl) rfl (by decide)

/-! ### Claim C8 — stream selection -/

/-- Insertion never yields the empty list. -/
theorem insertBy_ne_nil {α : Type} (le : α → α → Bool) (x : α) (l : List α) :
    insertBy le x l ≠ [] := by
  cases l with
  | nil => simp [insertBy]
  | cons y ys =>
    simp only [insertBy]
    split <;> simp

/-- Sorting preserves non-emptiness. -/
theorem sortBy_ne_nil {α : Type} (le : α → α → Bool) (l : List α) (h : l ≠ []) :
    sortBy le l ≠ [] := by
  cases l with
  | nil => exact absurd rfl h
  | cons x xs => exact insertBy_ne_nil le x _

/-- Head of an insertion. -/
theorem headD_insertBy {α : Type} (le : α → α → Bool) (x : α) (l : List α) (d : α) :
    (insertBy le x l).headD d =
      (match l with | [] => x | y :: _ => if le x y then x else y) := by
  cases l with
  | nil => rfl
  | cons y ys =>
    simp only [insertBy]
    split <;> simp

/-- The head of a stable sort is the `bestFirst` element: the first
element that is `le`-before all the later candidates. -/
theorem headD_sortBy {α : Type} (le : α → α → Bool) (d : α) :
    ∀ l : List α, l ≠ [] → (sortBy le l).headD d = bestFirst le d l := by
  intro l
  induction l with
  | nil => intro h; exact absurd rfl h
  | cons x xs ih =>
    intro _
    cases xs with
    | nil => rfl
    | cons y ys =>
      have hne : sortBy le (y :: ys) ≠ [] := sortBy_ne_nil le _ (by simp)
      cases hs : sortBy le (y :: ys) with
      | nil => exact absurd hs hne
      | cons h0 t0 =>
        have hh : h0 = bestFirst le d (y :: ys) := by
          have hhd := ih (by simp)
          rw [hs] at hhd
          simpa using hhd
        show (insertBy le x (sortBy le (y :: ys))).headD d = bestFirst le d (x :: y :: ys)
        rw [hs, headD_insertBy]
        simp only [bestFirst]
        rw [hh]

/-- The key of the `bestFirst` under the descending comparison is the
maximum key. -/
theorem bestFirst_key_max {α : Type} (key : α → Int) (d : α) :
    ∀ l : List α, l ≠ [] →
      key (bestFirst (fun a b => decide (key b ≤ key a)) d l) = maxKeyL (l.map key) := by
  intro l
  induction l with
  | nil => intro h; exact absurd rfl h
  | cons x xs ih =>
    intro _
    cases xs with
    | nil => rfl
    | cons y ys =>
      have hkm := ih (by simp)
      simp only [bestFirst]
      have hstep : maxKeyL ((x :: y :: ys).map key) =
          max (key x) (maxKeyL ((y :: ys).map key)) := rfl
      by_cases hle : key (bestFirst (fun a b => decide (key b ≤ key a)) d (y :: ys)) ≤ key x
      · rw [if_pos (by simpa using hle), hstep, ← hkm]
        exact (max_eq_left hle).symm
      · rw [if_neg (by simpa using hle), hstep, ← hkm]
        exact (max_eq_right (le_of_not_le hle)).symm

/-- Finding the first entry with the maximal key equals taking the
`bestFirst` under the descending comparison (first-position tie-break). -/
theorem find?_max_eq_bestFirst {α : Type} (key : α → Int) (d : α) :
    ∀ l : List α, l ≠ [] →
      l.find? (fun s => key s == maxKeyL (l.map key)) =
        some (bestFirst (fun a b => decide (key b ≤ key a)) d l) := by
  intro l
  induction l with
  | nil => intro h; exact absurd rfl h
  | cons x xs ih =>
    intro _
    cases xs with
    | nil => simp [maxKeyL, bestFirst]
    | cons y ys =>
      have hkm := bestFirst_key_max key d (y :: ys) (by simp)
      have hstep : maxKeyL ((x :: y :: ys).map key) =
          max (key x) (maxKeyL ((y :: ys).map key)) := rfl
      by_cases hle : key (bestFirst (fun a b => decide (key b ≤ key a)) d (y :: ys)) ≤ key x
      · have hpx : (key x == maxKeyL ((x :: y :: ys).map key)) = true := by
          rw [hstep, ← hkm, max_eq_left hle]
          simp
        have hfind : List.find? (fun s => key s == maxKeyL ((x :: y :: ys).map key))
            (x :: y :: ys) = some x := by
          apply List.find?_cons_of_pos
          exact hpx
        rw [hfind]
        simp only [bestFirst]
        rw [if_pos (by simpa using hle)]
      · have hxm : key x <
            key (bestFirst (fun a b => decide (key b ≤ key a)) d (y :: ys)) :=
          lt_of_not_le hle
        have hpx : (key x == maxKeyL ((x :: y :: ys).map key)) = false := by
          rw [hstep, ← hkm, max_eq_right (le_of_lt hxm)]
          simp only [beq_eq_false_iff_ne, ne_eq]
          exact ne_of_lt hxm
        have hfind : List.find? (fun s => key s == maxKeyL ((x :: y :: ys).map key))
            (x :: y :: ys) =
            List.find? (fun s => key s == maxKeyL ((x :: y :: ys).map key)) (y :: ys) := by
          apply List.find?_cons_of_neg
          simpa using hpx
        rw [hfind]
        have hpred : (fun s => key s == maxKeyL ((x :: y :: ys).map key)) =
            (fun s => key s == maxKeyL ((y :: ys).map key)) := by
          funext s
          rw [hstep, ← hkm, max_eq_right (le_of_lt hxm), hkm]
        rw [hpred, ih (by simp)]
        simp only [bestFirst]
        rw [if_neg (by simpa using hle)]

/-- The key of the `bestFirst` under the ascending comparison is the
minimum key. -/
theorem bestFirst_key_min {α : Type} (key : α → Int) (d : α) :
    ∀ l : List α, l ≠ [] →
      key (bestFirst (fun a b => decide (key a ≤ key b)) d l) = minKeyL (l.map key) := by
  intro l
  induction l with
  | nil => intro h; exact absurd rfl h
  | cons x xs ih =>
    intro _
    cases xs with
    | nil => rfl
    | cons y ys =>
      have hkm := ih (by simp)
      simp only [bestFirst]
      have hstep : minKeyL ((x :: y :: ys).map key) =
          min (key x) (minKeyL ((y :: ys).map key)) := rfl
      by_cases hle : key x ≤ key (bestFirst (fun a b => decide (key a ≤ key b)) d (y :: ys))
      · rw [if_pos (by simpa using hle), hstep, ← hkm]
        exact (min_eq_left hle).symm
      · rw [if_neg (by simpa using hle), hstep, ← hkm]
        exact (min_eq_right (le_of_not_le hle)).symm

/-- Finding the first entry with the minimal key equals taking the
`bestFirst` under the ascending comparison (first-position tie-break). -/
theorem find?_min_eq_bestFirst {α : Type} (key : α → Int) (d : α) :
    ∀ l : List α, l ≠ [] →
      l.find? (fun s => key s == minKeyL (l.map key)) =
        some (bestFirst (fun a b => decide (key a ≤ key b)) d l) := by
  intro l
  induction l with
  | nil => intro h; exact absurd rfl h
  | cons x xs ih =>
    intro _
    cases xs with
    | nil => simp [minKeyL, bestFirst]
    | cons y ys =>
      have hkm := bestFirst_key_min key d (y :: ys) (by simp)
      have hstep : minKeyL ((x :: y :: ys).map key) =
          min (key x) (minKeyL ((y :: ys).map key)) := rfl
      by_cases hle : key x ≤ key (bestFirst (fun a b => decide (key a ≤ key b)) d (y :: ys))
      · have hpx : (key x == minKeyL ((x :: y :: ys).map key)) = true := by
          rw [hstep, ← hkm, min_eq_left hle]
          simp
        have hfind : List.find? (fun s => key s == minKeyL ((x :: y :: ys).map key))
            (x :: y :: ys) = some x := by
          apply List.find?_cons_of_pos
          exact hpx
        rw [hfind]
        simp only [bestFirst]
        rw [if_pos (by simpa using hle)]
      · have hxm : key (bestFirst (fun a b => decide (key a ≤ key b)) d (y :: ys)) <
            key x := lt_of_not_le hle
        have hpx : (key x == minKeyL ((x :: y :: ys).map key)) = false := by
          rw [hstep, ← hkm, min_eq_right (le_of_lt hxm)]
          simp only [beq_eq_false_iff_ne, ne_eq]
          exact (ne_of_lt hxm).symm
        have hfind : List.find? (fun s => key s == minKeyL ((x :: y :: ys).map key))
            (x :: y :: ys) =
            List.find? (fun s => key s == minKeyL ((x :: y :: ys).map key)) (y :: ys) := by
          apply List.find?_cons_of_neg
          simpa using hpx
        rw [hfind]
        have hpred : (fun s => key s == minKeyL ((x :: y :: ys).map key)) =
            (fun s => key s == minKeyL ((y :: ys).map key)) := by
          funext s
          rw [hstep, ← hkm, min_eq_right (le_of_lt hxm), hkm]
        rw [hpred, ih (by simp)]
        simp only [bestFirst]
        rw [if_neg (by simpa using hle)]

/-- Claim C8: `select_video_stream` refines the spec's selection rule —
the exact-match entry if one exists, else the first (response-order)
entry with the highest id not exceeding the target, else the first entry
with the lowest id; the empty list is an error, and every non-empty list
yields a base URL without panicking. -/
theorem c8_select_video_stream (streams : List DashItem) (target : Int) :
    selectVideoStream streams target = selectVideoStreamSpec streams target ∧
    (streams = [] →
      selectVideoStream streams target = .error (.parseError noVideoStreamMsg)) ∧
    (streams ≠ [] → (selectVideoStream streams target).isOk = true) := by
  have hmain : selectVideoStream streams target = selectVideoStreamSpec streams target := by
    by_cases hemp : streams.isEmpty = true
    · simp [selectVideoStream, selectVideoStreamSpec, hemp]
    · have hne : streams ≠ [] := by
        intro h
        rw [h] at hemp
        exact hemp rfl
      simp only [selectVideoStream, selectVideoStreamSpec, if_neg hemp]
      cases hf : streams.find? (fun s => s.id == target) with
      | some s => rfl
      | none =>
        by_cases hsuit :
            (streams.filter (fun s => decide (s.id ≤ target))).isEmpty = true
        · have hs2 : (!(streams.filter (fun s => decide (s.id ≤ target))).isEmpty) = true →
              False := by
            rw [hsuit]
            simp
          rw [if_neg hs2, if_neg hs2]
          rw [find?_min_eq_bestFirst DashItem.id default streams hne,
            headD_sortBy _ default streams hne]
          rfl
        · have hsne : streams.filter (fun s => decide (s.id ≤ target)) ≠ [] := by
            intro h
            rw [h] at hsuit
            exact hsuit rfl
          have hs2 : (!(streams.filter (fun s => decide (s.id ≤ target))).isEmpty) = true := by
            cases h : (streams.filter (fun s => decide (s.id ≤ target))).isEmpty
            · rfl
            · exact absurd h hsuit
          rw [if_pos hs2, if_pos hs2]
          rw [find?_max_eq_bestFirst DashItem.id default _ hsne,
            headD_sortBy _ default _ hsne]
          rfl
  refine ⟨hmain, ?_, ?_⟩
  · intro h
    subst h
    rfl
  · intro hne
    rw [hmain]
    have hemp : ¬(streams.isEmpty = true) := by
      intro h
      exact hne (List.isEmpty_iff.mp h)
    have hok : ∃ r, selectVideoStreamSpec streams target = .ok r := by
      simp only [selectVideoStreamSpec, if_neg hemp]
      cases hf : streams.find? (fun s => s.id == target) with
      | some s => exact ⟨_, rfl⟩
      | none =>
        by_cases hsuit :
            (!(streams.filter (fun s => decide (s.id ≤ target))).isEmpty) = true
        · rw [if_pos hsuit]
          exact ⟨_, rfl⟩
        · rw [if_neg hsuit]
          exact ⟨_, rfl⟩
    obtain ⟨r, hr⟩ := hok
    rw [hr]
    rfl

/-- Witness for claim C8 at a concrete list: with entries of ids 64, 32,
64 (in response order) and target 80, the code and the spec rule agree,
and the first id-64 entry wins the tie; the empty list errors. -/
theorem c8_select_video_stream_witness :
    selectVideoStream
        [{ id := 64, base_url := "u64a" }, { id := 32, base_url := "u32" },
         { id := 64, base_url := "u64b" }] 80 =
      selectVideoStreamSpec
        [{ id := 64, base_url := "u64a" }, { id := 32, base_url := "u32" },
         { id := 64, base_url := "u64b" }] 80 ∧
    selectVideoStream
        [{ id := 64, base_url := "u64a" }, { id := 32, base_url := "u32" },
         { id := 64, base_url := "u64b" }] 80 = .ok (some "u64a") ∧
    selectVideoStream [] 80 = .error (.parseError noVideoStreamMsg) :=
  ⟨(c8_select_video_stream _ 80).1, rfl,
   (c8_select_video_stream [] 80).2.1 rfl⟩

/-! ### Claim C6 — work items emitted per clip resolution -/

/-- A successful video selection always carries a URL (the function never
returns `Ok(None)`). -/
theorem selectVideoStream_ok_some (streams : List DashItem) (target : Int)
    (urlOpt : Option String) (h : selectVideoStream streams target = .ok urlOpt) :
    ∃ u, urlOpt = some u := by
  simp only [selectVideoStream] at h
  split at h
  · exact absurd h (by simp)
  · split at h
    · rename_i s hs
      exact ⟨s.base_url, by injection h.symm⟩
    · split at h
      · exact ⟨_, by injection h.symm⟩
      · exact ⟨_, by injection h.symm⟩

/-- A successful audio selection always carries a URL. -/
theorem selectAudioStream_ok_some (streams : List DashItem)
    (urlOpt : Option String) (h : selectAudioStream streams = .ok urlOpt) :
    ∃ u, urlOpt = some u := by
  simp only [selectAudioStream] at h
  split at h
  · exact absurd h (by simp)
  · exact ⟨_, by injection h.symm⟩

/-- Case analysis of the danmaku component. -/
theorem danmakuTaskOf_cases (info : CommonVideoInfo) (cfg : DownloadConfig)
    (o : Option DownloadTask) (h : danmakuTaskOf info cfg = .ok o) :
    (cfg.need_danmaku = true ∧ ∃ t, o = some t ∧ t.file_type = .danmaku) ∨
    (cfg.need_danmaku = false ∧ o = none) := by
  by_cases hd : cfg.need_danmaku = true
  · left
    refine ⟨hd, ?_⟩
    simp only [danmakuTaskOf, if_pos hd, danmakuGetUrl] at h
    exact ⟨_, by injection h.symm, rfl⟩
  · right
    simp only [danmakuTaskOf, if_neg hd] at h
    exact ⟨by simpa using hd, by injection h.symm⟩

/-- Case analysis of the DASH video component. -/
theorem videoTaskOf_cases (info : CommonVideoInfo) (cfg : DownloadConfig)
    (play : PlayUrlData) (o : Option DownloadTask) (h : videoTaskOf info cfg play = .ok o) :
    (cfg.need_video = true ∧ play.dash.isSome = true ∧
      ∃ t, o = some t ∧ t.file_type = .video) ∨
    ((cfg.need_video = false ∨ play.dash = none) ∧ o = none) := by
  cases hdash : play.dash with
  | none =>
    right
    simp only [videoTaskOf, hdash] at h
    exact ⟨Or.inr rfl, by injection h.symm⟩
  | some d =>
    by_cases hv : cfg.need_video = true
    · left
      simp only [videoTaskOf, hdash, if_pos hv] at h
      cases hsel : selectVideoStream d.video cfg.resolution with
      | error e => rw [hsel] at h; exact absurd h (by simp)
      | ok urlOpt =>
        rw [hsel] at h
        obtain ⟨u, hu⟩ := selectVideoStream_ok_some d.video cfg.resolution urlOpt hsel
        subst hu
        refine ⟨hv, by simp [hdash], ?_⟩
        exact ⟨_, by injection h.symm, rfl⟩
    · right
      simp only [videoTaskOf, hdash, if_neg hv] at h
      exact ⟨Or.inl (by simpa using hv), by injection h.symm⟩

/-- Case analysis of the DASH audio component. -/
theorem audioTaskOf_cases (info : CommonVideoInfo) (cfg : DownloadConfig)
    (play : PlayUrlData) (o : Option DownloadTask) (h : audioTaskOf info cfg play = .ok o) :
    (cfg.need_audio = true ∧ play.dash.isSome = true ∧
      ∃ t, o = some t ∧ t.file_type = .audio) ∨
    ((cfg.need_audio = false ∨ play.dash = none) ∧ o = none) := by
  cases hdash : play.dash with
  | none =>
    right
    simp only [audioTaskOf, hdash] at h
    exact ⟨Or.inr rfl, by injection h.symm⟩
  | some d =>
    by_cases ha : cfg.need_audio = true
    · left
      simp only [audioTaskOf, hdash, if_pos ha] at h
      cases hsel : selectAudioStream d.audio with
      | error e => rw [hsel] at h; exact absurd h (by simp)
      | ok urlOpt =>
        rw [hsel] at h
        obtain ⟨u, hu⟩ := selectAudioStream_ok_some d.audio urlOpt hsel
        subst hu
        refine ⟨ha, by simp [hdash], ?_⟩
        exact ⟨_, by injection h.symm, rfl⟩
    · right
      simp only [audioTaskOf, hdash, if_neg ha] at h
      exact ⟨Or.inl (by simpa using ha), by injection h.symm⟩

/-- Case analysis of the progressive (`durl`) component. -/
theorem mp4TaskOf_cases (info : CommonVideoInfo) (cfg : DownloadConfig)
    (play : PlayUrlData) :
    (cfg.need_video = true ∧ (∃ m rest, play.durl = some (m :: rest)) ∧
      ∃ t, mp4TaskOf info cfg play = some t ∧ t.file_type = .video) ∨
    ((cfg.need_video = false ∨ play.durl = none ∨ play.durl = some []) ∧
      mp4TaskOf info cfg play = none) := by
  by_cases hv : cfg.need_video = true
  · cases hdurl : play.durl with
    | none =>
      right
      exact ⟨Or.inr (Or.inl rfl), by simp [mp4TaskOf, hdurl]⟩
    | some dl =>
      cases dl with
      | nil =>
        right
        exact ⟨Or.inr (Or.inr rfl), by simp [mp4TaskOf, hdurl]⟩
      | cons m rest =>
        left
        refine ⟨hv, ⟨m, rest, rfl⟩,
          DownloadTask.new m.url .video (info.title ++ ".mp4")
            ("./tmp/" ++ info.title ++ "-durl-video.mp4") (toString info.cid)
            [("desc", info.desc)], ?_, rfl⟩
        simp [mp4TaskOf, hdurl, hv]
  · right
    refine ⟨Or.inl (by simpa using hv), ?_⟩
    simp only [mp4TaskOf]
    rw [if_neg (by simp [hv])]

/-- On a zero-code response with a payload, `get_play_url` answers with
exactly that payload (the payload is neither-`dash`-nor-`durl`-free since
it was accepted). -/
theorem getPlayUrl_ok_inv (resp : CommonResponse PlayUrlData) (play p : PlayUrlData)
    (h : getPlayUrl resp = .ok p) (hcode : resp.code = 0) (hdata : resp.data = some play) :
    p = play := by
  simp only [getPlayUrl, hcode, hdata] at h
  rw [if_neg (by simp)] at h
  split at h
  · exact absurd h (by simp)
  · exact (by injection h : play = p).symm

/-- Video-count over an append. -/
theorem countVideoTasks_append (a b : List DownloadTask) :
    countVideoTasks (a ++ b) = countVideoTasks a + countVideoTasks b := by
  simp [countVideoTasks, List.filter_append]

/-- Audio-count over an append. -/
theorem countAudioTasks_append (a b : List DownloadTask) :
    countAudioTasks (a ++ b) = countAudioTasks a + countAudioTasks b := by
  simp [countAudioTasks, List.filter_append]

/-- Claim C6 (amended: the non-emptiness is tied to the danmaku flag,
the exactly-one-Video/Audio shape additionally assumes `durl` absent,
the progressive count assumes video requested and a non-empty `durl`,
and the at-most-one bound assumes the playback descriptor does not carry
both `dash` and `durl` — the code emits a DASH video task and a
progressive task simultaneously when both are present): for every
successful clip resolution, if danmaku is requested the work-item list
is non-empty; a pure DASH descriptor with video and audio requested
yields exactly one Video and one Audio task; a pure `durl` descriptor
yields no Audio task, and exactly one (progressive) Video task when
video is requested and the `durl` list is non-empty; and when the
descriptor does not carry both `dash` and `durl`, at most one Video and
at most one Audio task are emitted. -/
theorem c6_clip_work_items (info : CommonVideoInfo) (cfg : DownloadConfig)
    (resp : CommonResponse PlayUrlData) (play : PlayUrlData) (l : List DownloadTask)
    (hok : createVideoMeta info cfg resp = .ok l)
    (hcode : resp.code = 0) (hdata : resp.data = some play) :
    (cfg.need_danmaku = true → l ≠ []) ∧
    (∀ d, play.dash = some d → play.durl = none →
      cfg.need_video = true → cfg.need_audio = true →
      countVideoTasks l = 1 ∧ countAudioTasks l = 1) ∧
    (∀ dl, play.dash = none → play.durl = some dl →
      countAudioTasks l = 0 ∧
      (cfg.need_video = true → dl ≠ [] → countVideoTasks l = 1)) ∧
    (¬(play.dash.isSome = true ∧ play.durl.isSome = true) →
      countVideoTasks l ≤ 1 ∧ countAudioTasks l ≤ 1) := by
  simp only [createVideoMeta] at hok
  obtain ⟨p0, hgp, hok1⟩ := exceptBind_ok hok
  have hp0 : p0 = play := getPlayUrl_ok_inv resp play p0 hgp hcode hdata
  rw [hp0] at hok1
  obtain ⟨dOpt, hdan, hok2⟩ := exceptBind_ok hok1
  obtain ⟨vOpt, hvid, hok3⟩ := exceptBind_ok hok2
  obtain ⟨aOpt, haud, hok4⟩ := exceptBind_ok hok3
  have hl : dOpt.toList ++ vOpt.toList ++ aOpt.toList ++
      (mp4TaskOf info cfg play).toList = l := by
    simpa [pure, Except.pure] using hok4
  have hdanc := danmakuTaskOf_cases info cfg dOpt hdan
  have hvidc := videoTaskOf_cases info cfg play vOpt hvid
  have haudc := audioTaskOf_cases info cfg play aOpt haud
  have hmp4c := mp4TaskOf_cases info cfg play
  -- per-component counts
  have hd0 : countVideoTasks dOpt.toList = 0 ∧ countAudioTasks dOpt.toList = 0 := by
    rcases hdanc with ⟨_, t, hto, htty⟩ | ⟨_, hto⟩
    · rw [hto]
      simp [countVideoTasks, countAudioTasks, htty]
    · rw [hto]
      simp [countVideoTasks, countAudioTasks]
  have hv0 : countAudioTasks vOpt.toList = 0 ∧
      (countVideoTasks vOpt.toList = 0 ∨ countVideoTasks vOpt.toList = 1) := by
    rcases hvidc with ⟨_, _, vt, hvt, hvtty⟩ | ⟨_, hvt⟩
    · rw [hvt]
      simp [countVideoTasks, countAudioTasks, hvtty]
    · rw [hvt]
      simp [countVideoTasks, countAudioTasks]
  have hv1 : cfg.need_video = true → play.dash.isSome = true →
      countVideoTasks vOpt.toList = 1 := by
    intro hnv hds
    rcases hvidc with ⟨_, _, vt, hvt, hvtty⟩ | ⟨hbad, _⟩
    · rw [hvt]
      simp [countVideoTasks, hvtty]
    · rcases hbad with hb | hb
      · rw [hnv] at hb
        exact absurd hb (by simp)
      · rw [hb] at hds
        exact absurd hds (by simp)
  have hv2 : play.dash = none → countVideoTasks vOpt.toList = 0 := by
    intro hds
    rcases hvidc with ⟨_, hds2, _⟩ | ⟨_, hvt⟩
    · rw [hds] at hds2
      exact absurd hds2 (by simp)
    · rw [hvt]
      simp [countVideoTasks]
  have hv3 : countVideoTasks vOpt.toList = 1 → play.dash.isSome = true := by
    intro hcv
    rcases hvidc with ⟨_, hds, _⟩ | ⟨_, hvt⟩
    · exact hds
    · rw [hvt] at hcv
      simp [countVideoTasks] at hcv
  have ha0 : countVideoTasks aOpt.toList = 0 ∧
      (countAudioTasks aOpt.toList = 0 ∨ countAudioTasks aOpt.toList = 1) := by
    rcases haudc with ⟨_, _, at0, hat, hatty⟩ | ⟨_, hat⟩
    · rw [hat]
      simp [countVideoTasks, countAudioTasks, hatty]
    · rw [hat]
      simp [countVideoTasks, countAudioTasks]
  have ha1 : cfg.need_audio = true → play.dash.isSome = true →
      countAudioTasks aOpt.toList = 1 := by
    intro hna hds
    rcases haudc with ⟨_, _, at0, hat, hatty⟩ | ⟨hbad, _⟩
    · rw [hat]
      simp [countAudioTasks, hatty]
    · rcases hbad with hb | hb
      · rw [hna] at hb
        exact absurd hb (by simp)
      · rw [hb] at hds
        exact absurd hds (by simp)
  have ha2 : play.dash = none → countAudioTasks aOpt.toList = 0 := by
    intro hds
    rcases haudc with ⟨_, hds2, _⟩ | ⟨_, hat⟩
    · rw [hds] at hds2
      exact absurd hds2 (by simp)
    · rw [hat]
      simp [countAudioTasks]
  have hm0 : countAudioTasks (mp4TaskOf info cfg play).toList = 0 ∧
      (countVideoTasks (mp4TaskOf info cfg play).toList = 0 ∨
        countVideoTasks (mp4TaskOf info cfg play).toList = 1) := by
    rcases hmp4c with ⟨_, _, mt, hmt, hmtty⟩ | ⟨_, hmt⟩
    · rw [hmt]
      simp [countVideoTasks, countAudioTasks, hmtty]
    · rw [hmt]
      simp [countVideoTasks, countAudioTasks]
  have hm1 : cfg.need_video = true → (∃ m rest, play.durl = some (m :: rest)) →
      countVideoTasks (mp4TaskOf info cfg play).toList = 1 := by
    intro hnv hdl
    obtain ⟨m, rest, hmr⟩ := hdl
    rcases hmp4c with ⟨_, _, mt, hmt, hmtty⟩ | ⟨hbad, _⟩
    · rw [hmt]
      simp [countVideoTasks, hmtty]
    · rcases hbad with hb | hb | hb
      · rw [hnv] at hb
        exact absurd hb (by simp)
      · rw [hmr] at hb
        exact absurd hb (by simp)
      · rw [hmr] at hb
        have hnil : (m :: rest : List Mp4Info) = [] := by injection hb
        exact absurd hnil (by simp)
  have hm2 : play.durl = none →
      countVideoTasks (mp4TaskOf info cfg play).toList = 0 := by
    intro hdl
    rcases hmp4c with ⟨_, ⟨m, rest, hmr⟩, _⟩ | ⟨_, hmt⟩
    · rw [hdl] at hmr
      exact absurd hmr (by simp)
    · rw [hmt]
      simp [countVideoTasks]
  have hm3 : countVideoTasks (mp4TaskOf info cfg play).toList = 1 →
      play.durl.isSome = true := by
    intro hcv
    rcases hmp4c with ⟨_, ⟨m, rest, hmr⟩, _⟩ | ⟨_, hmt⟩
    · rw [hmr]
      rfl
    · rw [hmt] at hcv
      simp [countVideoTasks] at hcv
  have hcv : countVideoTasks l =
      countVideoTasks dOpt.toList + countVideoTasks vOpt.toList +
      countVideoTasks aOpt.toList +
      countVideoTasks (mp4TaskOf info cfg play).toList := by
    rw [← hl]
    simp [countVideoTasks_append]
    omega
  have hca : countAudioTasks l =
      countAudioTasks dOpt.toList + countAudioTasks vOpt.toList +
      countAudioTasks aOpt.toList +
      countAudioTasks (mp4TaskOf info cfg play).toList := by
    rw [← hl]
    simp [countAudioTasks_append]
    omega
  refine ⟨?_, ?_, ?_, ?_⟩
  · intro hnd
    rcases hdanc with ⟨_, t, hto, _⟩ | ⟨hfalse, _⟩
    · intro hl0
      rw [← hl, hto] at hl0
      simp at hl0
    · rw [hnd] at hfalse
      exact absurd hfalse (by simp)
  · intro d hdash hdurl hnv hna
    have h1 := hv1 hnv (by simp [hdash])
    have h2 := ha1 hna (by simp [hdash])
    have h3 := hm2 hdurl
    refine ⟨?_, ?_⟩
    · rw [hcv, hd0.1, h1, ha0.1, h3]
    · rw [hca, hd0.2, hv0.1, h2, hm0.1]
  · intro dl hdash hdurl
    refine ⟨?_, ?_⟩
    · rw [hca, hd0.2, hv0.1, ha2 hdash, hm0.1]
    · intro hnv hdlne
      have hdl : ∃ m rest, play.durl = some (m :: rest) := by
        cases dl with
        | nil => exact absurd rfl hdlne
        | cons m rest => exact ⟨m, rest, hdurl⟩
      rw [hcv, hd0.1, hv2 hdash, ha0.1, hm1 hnv hdl]
  · intro hnot
    refine ⟨?_, ?_⟩
    · rw [hcv, hd0.1, ha0.1]
      rcases hv0.2 with h4 | h4 <;> rcases hm0.2 with h5 | h5
      · omega
      · omega
      · omega
      · exact absurd ⟨hv3 h4, hm3 h5⟩ hnot
    · rw [hca, hd0.2, hv0.1, hm0.1]
      rcases ha0.2 with h4 | h4 <;> omega

/-- View payload for the C6 counterexample. -/
def cex6Info : CommonVideoInfo := ⟨none, "T", "P", "D", ⟨"O", 1⟩, 7, "BV1x"⟩

/-- Config for the C6 counterexample: only video requested. -/
def cex6Cfg : DownloadConfig := { resolution := 80, need_audio := false, need_danmaku := false }

/-- DASH descriptor for the C6 counterexample. -/
def cex6Dash : DashInfo := { audio := [], video := [{ id := 80, base_url := "vurl" }] }

/-- Play response for the C6 counterexample: both `dash` and `durl`
present (the struct admits it; the code guards only against both being
absent). -/
def cex6Play : CommonResponse PlayUrlData :=
  ⟨0, "", some { dash := some cex6Dash, durl := some [{ url := "mp4url" }] }, none⟩

/-- Counterexample to claim C6 as stated: with `dash` and `durl` both
present and video requested, `create_video_meta` emits the DASH video
task **and** the progressive `durl` task — two Video-typed work items
for one episode, though the claim says at most one Video is emitted in
all cases. -/
theorem c6_clip_work_items_counterexample :
    countVideoTasks (okTasks (createVideoMeta cex6Info cex6Cfg cex6Play)) = 2 ∧
    (createVideoMeta cex6Info cex6Cfg cex6Play).isOk = true := by
  exact ⟨by decide, by decide⟩

/-- View payload for the C6 witness. -/
def w6Info : CommonVideoInfo := ⟨none, "T", "P", "D", ⟨"O", 1⟩, 7, "BV1x"⟩

/-- Config for the C6 witness: defaults (everything requested). -/
def w6Cfg : DownloadConfig := { resolution := 80 }

/-- DASH descriptor for the C6 witness. -/
def w6Dash : DashInfo :=
  { audio := [{ id := 30280, base_url := "aurl" }], video := [{ id := 80, base_url := "vurl" }] }

/-- Play payload for the C6 witness: DASH only. -/
def w6PlayData : PlayUrlData := { dash := some w6Dash, durl := none }

/-- Play response for the C6 witness. -/
def w6Play : CommonResponse PlayUrlData := ⟨0, "", some w6PlayData, none⟩

/-- Witness for claim C6 at a concrete DASH resolution with all flags on:
exactly one Video and one Audio task, and a non-empty item list. -/
theorem c6_clip_work_items_witness :
    countVideoTasks (okTasks (createVideoMeta w6Info w6Cfg w6Play)) = 1 ∧
    countAudioTasks (okTasks (createVideoMeta w6Info w6Cfg w6Play)) = 1 ∧
    okTasks (createVideoMeta w6Info w6Cfg w6Play) ≠ [] := by
  have h := c6_clip_work_items w6Info w6Cfg w6Play w6PlayData
    (okTasks (createVideoMeta w6Info w6Cfg w6Play)) rfl rfl rfl
  exact ⟨(h.2.1 w6Dash rfl rfl rfl rfl).1, (h.2.1 w6Dash rfl rfl rfl rfl).2, h.1 rfl⟩

end BiliDl
